import Mathlib

/-!
Verification of the localized edit and differential render pipeline of the
`void` repository. The JavaScript sources (`src/lib/automation-engine.mjs`
and the render runtime embedded in `src/README.md`) are shallowly embedded:
JavaScript numbers are modelled as exact rationals together with an explicit
NaN value (`JNum`), general JavaScript values — where the code only inspects
truthiness, nullishness and `Number()` coercion — as `JVal`, and the
filesystem / ffmpeg effects of the render executor as boolean success
oracles. `Number.prototype.toFixed` is applied by the code only to
non-negative values, so it is modelled as half-up rounding; `±Infinity`,
`BigInt` and `Symbol` inputs are outside the modelled value space.
-/

namespace Void

/-- model of a JavaScript number: a finite value (as an exact rational) or NaN. -/
inductive JNum where
  | num (q : ℚ)
  | nan
  deriving DecidableEq

/-- Number.isFinite for a modelled number. -/
def JNum.isNum : JNum → Bool
  | .num _ => true
  | .nan => false

/-- JavaScript addition: NaN propagates. -/
def jadd : JNum → JNum → JNum
  | .num p, .num q => .num (p + q)
  | _, _ => .nan

/-- JavaScript subtraction: NaN propagates. -/
def jsub : JNum → JNum → JNum
  | .num p, .num q => .num (p - q)
  | _, _ => .nan

/-- JavaScript multiplication: NaN propagates. -/
def jmul : JNum → JNum → JNum
  | .num p, .num q => .num (p * q)
  | _, _ => .nan

/-- JavaScript division. NaN propagates. Division by zero yields Infinity in
JavaScript, which is outside the modelled value space; in the embedded code
the only divisors are `fps` values already clamped into `[12, 120]` (or NaN),
so the zero case is unreachable and modelled as NaN. -/
def jdiv : JNum → JNum → JNum
  | .num p, .num q => if q = 0 then .nan else .num (p / q)
  | _, _ => .nan

/-- Math.max on two values: NaN if either argument is NaN. -/
def jmax : JNum → JNum → JNum
  | .num p, .num q => .num (max p q)
  | _, _ => .nan

/-- Math.min on two values: NaN if either argument is NaN. -/
def jmin : JNum → JNum → JNum
  | .num p, .num q => .num (min p q)
  | _, _ => .nan

/-- the JavaScript comparison `a < b`: false whenever either side is NaN. -/
def jlt : JNum → JNum → Bool
  | .num p, .num q => decide (p < q)
  | _, _ => false

/-- Math.floor: NaN propagates. -/
def jfloor : JNum → JNum
  | .num q => .num ((⌊q⌋ : ℤ) : ℚ)
  | .nan => .nan

/-- Math.round (half toward positive infinity): NaN propagates. -/
def jsRound : JNum → JNum
  | .num q => .num ((⌊q + 1/2⌋ : ℤ) : ℚ)
  | .nan => .nan

/-- half-up rounding to `k` decimal digits, the effect of
`Number(x.toFixed(k))` on the non-negative finite values the code applies
it to. -/
def roundFix (k : ℕ) (q : ℚ) : ℚ := ((⌊q * 10 ^ k + 1/2⌋ : ℤ) : ℚ) / 10 ^ k

/-- millisecond rounding, the effect of `Number(x.toFixed(3))`. -/
def roundMilli (q : ℚ) : ℚ := roundFix 3 q

/-- `Number(x.toFixed(3))` on a modelled number: `NaN.toFixed(3)` is the
string "NaN", which `Number` coerces back to NaN. -/
def jToFixed3 : JNum → JNum
  | .num q => .num (roundMilli q)
  | .nan => .nan

/-- model of a general JavaScript value as far as the embedded code inspects
it: nullishness (`undef`, `jnull`), finite numbers, NaN, and `misc` for every
other value (strings, objects, booleans), recorded by its truthiness and its
`Number()` coercion. -/
inductive JVal where
  | undef
  | jnull
  | num (q : ℚ)
  | nan
  | misc (truthy : Bool) (toNum : JNum)
  deriving DecidableEq

/-- the `Number()` coercion of a value (`Number(undefined)` is NaN,
`Number(null)` is 0). -/
def JVal.toNumber : JVal → JNum
  | .undef => .nan
  | .jnull => .num 0
  | .num q => .num q
  | .nan => .nan
  | .misc _ n => n

/-- JavaScript truthiness of a value. -/
def JVal.truthy : JVal → Bool
  | .undef => false
  | .jnull => false
  | .num q => decide (q ≠ 0)
  | .nan => false
  | .misc t _ => t

/-- the JavaScript expression `a || b`. -/
def jor (a b : JVal) : JVal := if a.truthy then a else b

/-- the JavaScript expression `a ?? b`. -/
def jcoalesce (a b : JVal) : JVal :=
  match a with
  | .undef => b
  | .jnull => b
  | _ => a

/-- `clamp(value, min, max)` from src/lib/automation-engine.mjs:
`Math.max(min, Math.min(max, value))`. NaN propagates, as in JavaScript. -/
def clamp (value lo hi : JNum) : JNum := jmax lo (jmin hi value)

/-- clamping of a number already known to be finite. -/
def qclamp (v lo hi : ℚ) : ℚ := max lo (min hi v)

/-- a rational lying on the millisecond grid. -/
def Grid (q : ℚ) : Prop := ∃ n : ℤ, q = (n : ℚ) / 1000

/-! ### Ranges and sorting

JavaScript `Array.prototype.sort` with comparator `(a, b) => a.start - b.start`
is a stable ascending sort by `start`; it is modelled by Mathlib's stable
`List.insertionSort`. The source field name `end` is a Lean keyword and is
rendered as `stop` throughout. -/

/-- a range with possibly-NaN endpoints, as produced by the raw range
extraction steps of the planner. -/
structure JRange where
  start : JNum
  stop : JNum
  deriving DecidableEq

/-- a range with finite endpoints. -/
structure RangeQ where
  start : ℚ
  stop : ℚ
  deriving DecidableEq

/-- the sort order used by the planner's comparators. -/
def byStart (a b : RangeQ) : Prop := a.start ≤ b.start

instance : DecidableRel byStart := fun a b => inferInstanceAs (Decidable (a.start ≤ b.start))

instance : IsTotal RangeQ byStart := ⟨fun a b => le_total a.start b.start⟩

instance : IsTrans RangeQ byStart := ⟨fun _ _ _ h h2 => le_trans h h2⟩

/-! ### src/lib/automation-engine.mjs : normalizer -/

/-- the four fields the code reads off a raw region object. -/
structure RegionInput where
  x : JVal
  y : JVal
  width : JVal
  height : JVal

/-- a raw region value that is not an object (or is nullish) contributes no
fields; the code replaces it by `{}`. -/
def RegionInput.empty : RegionInput := ⟨.undef, .undef, .undef, .undef⟩

/-- the record returned by `normalizeRegion`. Fields can be NaN, because
`clamp` propagates NaN. -/
structure Region where
  x : JNum
  y : JNum
  width : JNum
  height : JNum
  deriving DecidableEq

/-- `normalizeRegion(rawRegion)` from src/lib/automation-engine.mjs lines 59-71. -/
def normalizeRegion (rawRegion : Option RegionInput) : Region :=
  let region := rawRegion.getD .empty
  let x := clamp ((jcoalesce region.x (.num (1/10))).toNumber) (.num 0) (.num 1)
  let y := clamp ((jcoalesce region.y (.num (1/10))).toNumber) (.num 0) (.num 1)
  let width := clamp ((jcoalesce region.width (.num (2/5))).toNumber) (.num (1/100)) (.num 1)
  let height := clamp ((jcoalesce region.height (.num (2/5))).toNumber) (.num (1/100)) (.num 1)
  { x := x
    y := y
    width := jmin width (jsub (.num 1) x)
    height := jmin height (jsub (.num 1) y) }

/-- `normalizeDuration(rawDuration)` from src/lib/automation-engine.mjs lines
73-77: non-finite or non-positive values default to 60, then the value is
clamped to `[1, 10800]`. -/
def normalizeDuration (rawDuration : JVal) : ℚ :=
  match rawDuration.toNumber with
  | .nan => 60
  | .num v => if v ≤ 0 then 60 else qclamp v 1 10800

/-! ### src/lib/automation-engine.mjs : mergeRanges -/

/-- the per-range normalization step of `mergeRanges`: ranges with a
non-finite endpoint are dropped; the rest are oriented, padded, and floored
at 0. -/
def mergeNormalize (paddingSec : ℚ) (range : JRange) : Option RangeQ :=
  match range.start, range.stop with
  | .num s, .num e =>
      some ⟨max 0 (min s e - paddingSec), max 0 (max s e + paddingSec)⟩
  | _, _ => none

/-- the merge loop of `mergeRanges`: a running range absorbs the next one
when its start is within the 0.001 s tolerance of the running end. -/
def mergeLoop (cur : RangeQ) : List RangeQ → List RangeQ
  | [] => [cur]
  | r :: rest =>
      if r.start ≤ cur.stop + 1/1000 then
        mergeLoop ⟨cur.start, max cur.stop r.stop⟩ rest
      else
        cur :: mergeLoop r rest

/-- `mergeRanges(inputRanges, paddingSec)` from src/lib/automation-engine.mjs
lines 79-109: normalize, sort by start, merge with tolerance, round each
endpoint to millisecond precision. -/
def mergeRanges (inputRanges : List JRange) (paddingSec : ℚ) : List RangeQ :=
  match List.insertionSort byStart (inputRanges.filterMap (mergeNormalize paddingSec)) with
  | [] => []
  | h :: t => (mergeLoop h t).map fun r => ⟨roundMilli r.start, roundMilli r.stop⟩

/-! ### src/lib/automation-engine.mjs : framesToRanges -/

/-- the run-grouping loop of `framesToRanges`: consecutive frame indices are
grouped into one range `[startFrame / fps, (prev + 1) / fps]`. -/
def framesLoop (fps : JNum) (startFrame prev : ℤ) : List ℤ → List JRange
  | [] => [⟨jdiv (.num (startFrame : ℚ)) fps, jdiv (.num ((prev + 1 : ℤ) : ℚ)) fps⟩]
  | c :: rest =>
      if c = prev + 1 then
        framesLoop fps startFrame c rest
      else
        ⟨jdiv (.num (startFrame : ℚ)) fps, jdiv (.num ((prev + 1 : ℤ) : ℚ)) fps⟩ ::
          framesLoop fps c c rest

/-- `framesToRanges(frames, fps)` from src/lib/automation-engine.mjs lines
292-318: keep finite non-negative frame numbers, floor them, de-duplicate
(Set semantics), sort ascending, then group consecutive runs. -/
def framesToRanges (frames : List JVal) (fps : JNum) : List JRange :=
  let sorted := List.insertionSort (fun a b : ℤ => a ≤ b)
    ((frames.filterMap fun f =>
      match f.toNumber with
      | .num q => if 0 ≤ q then some ⌊q⌋ else none
      | .nan => none)).eraseDups
  match sorted with
  | [] => []
  | f0 :: rest => framesLoop fps f0 f0 rest

/-! ### src/lib/automation-engine.mjs : invertRanges -/

/-- the cursor walk of `invertRanges`, emitting a gap whenever the next
changed range starts strictly after the cursor. -/
def invertLoop (durationSec : ℚ) (cursor : ℚ) : List RangeQ → List RangeQ
  | [] =>
      if cursor < durationSec then [⟨roundMilli cursor, roundMilli durationSec⟩] else []
  | r :: rest =>
      if cursor < r.start then
        ⟨roundMilli cursor, roundMilli r.start⟩ :: invertLoop durationSec (max cursor r.stop) rest
      else
        invertLoop durationSec (max cursor r.stop) rest

/-- `invertRanges(durationSec, changedRanges)` from
src/lib/automation-engine.mjs lines 320-333. -/
def invertRanges (durationSec : ℚ) (changedRanges : List RangeQ) : List RangeQ :=
  invertLoop durationSec 0 changedRanges

/-! ### src/lib/automation-engine.mjs : buildIncrementalRenderPlan -/

/-- the three fields the planner reads off one element of
`payload.patchLayers`, each reached through optional chaining (so a
non-object element simply yields `undef` everywhere). -/
structure PatchLayerInput where
  frameTimestampSec : JVal
  timestampSec : JVal
  propagationWindowSec : JVal

/-- one element of `payload.changedRanges`: the planner reads `.start` and
`.end` on it without optional chaining, so a nullish element makes the
whole call throw a TypeError. A non-nullish, non-object element (for
example a number) yields `undef` for both fields and is modelled by `obj`. -/
inductive ChangedRangeInput where
  | nullish
  | obj (start stop : JVal)

/-- the payload fields read by `buildIncrementalRenderPlan`. A `none` list
field models a value that fails the `Array.isArray` test. -/
structure PlanPayload where
  durationSec : JVal
  videoDurationSec : JVal
  fps : JVal
  patchLayers : Option (List PatchLayerInput)
  changedRanges : Option (List ChangedRangeInput)
  changedFrames : Option (List JVal)
  outputProfiles : Option (List String)

/-- execution mode of one plan segment. -/
inductive SegMode where
  | reencode
  | copy
  deriving DecidableEq

/-- one entry of `RenderPlan.segments`. -/
structure Segment where
  start : ℚ
  stop : ℚ
  mode : SegMode
  deriving DecidableEq

/-- the segment sort order (`(a, b) => a.start - b.start`). -/
def bySegStart (a b : Segment) : Prop := a.start ≤ b.start

instance : DecidableRel bySegStart := fun a b => inferInstanceAs (Decidable (a.start ≤ b.start))

instance : IsTotal Segment bySegStart := ⟨fun a b => le_total a.start b.start⟩

instance : IsTrans Segment bySegStart := ⟨fun _ _ _ h h2 => le_trans h h2⟩

/-- the record returned by `buildIncrementalRenderPlan`. `reencodeShare`
models the source field `cacheHints.reencodeRatio`. -/
structure RenderPlan where
  renderPlanId : String
  durationSec : ℚ
  fps : JNum
  changedRanges : List RangeQ
  unchangedRanges : List RangeQ
  segments : List Segment
  renderProfiles : List String
  preserveAudio : Bool
  preserveCaptions : Bool
  preserveCuts : Bool
  preserveCompressionConsistency : Bool
  keyframeStride : JNum
  reencodeShare : ℚ
  createdAt : String

/-- the patch-window derivation inlined in `buildIncrementalRenderPlan`
(src/lib/automation-engine.mjs lines 339-346): a patch whose timestamp does
not coerce to a finite number is dropped; otherwise its window is
`[max(0, ts - radius), min(durationSec, ts + radius)]` with
`radius = clamp(Number(windowSec || 0.55), 0.1, 3)`. A NaN radius (from a
truthy non-numeric `windowSec`) produces NaN endpoints, later dropped by
`mergeRanges`. -/
def patchWindow (durationSec : ℚ) (patch : PatchLayerInput) : Option JRange :=
  match (jcoalesce patch.frameTimestampSec patch.timestampSec).toNumber with
  | .nan => none
  | .num ts =>
      let radius := clamp ((jor patch.propagationWindowSec (.num (11/20))).toNumber)
        (.num (1/10)) (.num 3)
      some ⟨jmax (.num 0) (jsub (.num ts) radius),
            jmin (.num durationSec) (jadd (.num ts) radius)⟩

/-- the `payload.changedRanges` map `{start: Number(range.start), end:
Number(range.end)}`: property access on a nullish element throws, aborting
the whole call at the first nullish element. -/
def readExplicitRanges : List ChangedRangeInput → Except String (List JRange)
  | [] => .ok []
  | .nullish :: _ => .error "TypeError: Cannot read properties of null (reading start)"
  | .obj s e :: rest => (readExplicitRanges rest).map (⟨s.toNumber, e.toNumber⟩ :: ·)

/-- default output profiles of the planner. -/
def defaultProfiles : List String := ["9:16", "1:1", "16:9"]

/-- `buildIncrementalRenderPlan(payload)` from src/lib/automation-engine.mjs
lines 335-392. `uuid` and `now` stand for the effectful `randomUUID()` and
`new Date().toISOString()` calls. The result is an `Except` because reading
`.start` off a nullish element of `payload.changedRanges` throws; every
other path is total. -/
def buildIncrementalRenderPlan (payload : PlanPayload) (uuid now : String) :
    Except String RenderPlan :=
  let durationSec := normalizeDuration (jor payload.durationSec (jor payload.videoDurationSec (.num 60)))
  let fps := clamp ((jor payload.fps (.num 30)).toNumber) (.num 12) (.num 120)
  let patchRanges := (payload.patchLayers.getD []).filterMap (patchWindow durationSec)
  match readExplicitRanges (payload.changedRanges.getD []) with
  | .error e => .error e
  | .ok explicitRaw =>
      let explicitRanges := explicitRaw.filter fun r => r.start.isNum && r.stop.isNum
      let explicitFrameRanges := framesToRanges (payload.changedFrames.getD []) fps
      let changedRanges :=
        ((mergeRanges (patchRanges ++ explicitRanges ++ explicitFrameRanges) (1/25)).map
          fun r => (⟨roundMilli (qclamp r.start 0 durationSec),
                     roundMilli (qclamp r.stop 0 durationSec)⟩ : RangeQ)).filter
          fun r => decide (1/100 < r.stop - r.start)
      let unchangedRanges := invertRanges durationSec changedRanges
      let segments := List.insertionSort bySegStart
        (changedRanges.map (fun r => (⟨r.start, r.stop, .reencode⟩ : Segment)) ++
         unchangedRanges.map (fun r => (⟨r.start, r.stop, .copy⟩ : Segment)))
      let renderProfiles :=
        match payload.outputProfiles with
        | some l => if l.isEmpty then defaultProfiles else l
        | none => defaultProfiles
      .ok {
        renderPlanId := uuid
        durationSec := roundMilli durationSec
        fps := fps
        changedRanges := changedRanges
        unchangedRanges := unchangedRanges
        segments := segments
        renderProfiles := renderProfiles
        preserveAudio := true
        preserveCaptions := true
        preserveCuts := true
        preserveCompressionConsistency := true
        keyframeStride := jsRound (jmul fps (.num 2))
        reencodeShare := roundFix 4
          ((changedRanges.foldl (fun acc r => acc + (r.stop - r.start)) 0) / durationSec)
        createdAt := now }

/-! ### src/lib/automation-engine.mjs : buildFramePatchResult and state -/

/-- ASCII model of `String.prototype.toLowerCase`; every string the embedded
code lowercases is ASCII. -/
def jsToLower (s : String) : String := ⟨s.data.map Char.toLower⟩

/-- the fields `buildFramePatchResult` reads off its input. String-valued
fields are modelled after their `String()` coercion, with `none` standing
for a falsy raw value (absent, null, empty). -/
structure FramePatchInput where
  patchId : Option String
  timestampSec : JVal
  frameTimestampSec : JVal
  fps : JVal
  region : Option RegionInput
  instruction : Option String
  prompt : Option String
  provider : Option String
  model : Option String
  status : Option String
  videoId : Option String
  sourceId : Option String
  frameOriginalUri : Option String
  frameEditedUri : Option String
  diffVisualUri : Option String
  motionMethod : Option String
  propagationWindowSec : JVal
  notes : Option String

/-- a patch-layer input with every field absent. -/
def FramePatchInput.empty : FramePatchInput :=
  ⟨none, .undef, .undef, .undef, none, none, none, none, none, none, none, none,
   none, none, none, none, .undef, none⟩

/-- the record returned by `buildFramePatchResult(input)`
(src/lib/automation-engine.mjs lines 231-267). Nested objects are
flattened into prefixed field names. -/
structure FramePatch where
  patchId : String
  videoId : String
  frameTimestampSec : JNum
  frameIndex : JNum
  frameFps : JNum
  region : Region
  instruction : String
  provider : String
  model : String
  status : String
  frameOriginalUri : String
  frameEditedUri : String
  diffVisualUri : String
  propagationMethod : String
  propagationWindowSec : JNum
  createdAt : String
  notes : String

/-- `buildFramePatchResult(input)` from src/lib/automation-engine.mjs lines
231-267; `uuid` and `now` stand for `randomUUID()` and
`new Date().toISOString()`. -/
def buildFramePatchResult (input : FramePatchInput) (uuid now : String) : FramePatch :=
  let timestampSec := clamp
    ((jcoalesce input.timestampSec (jcoalesce input.frameTimestampSec (.num 0))).toNumber)
    (.num 0) (.num 10800)
  let fps := clamp ((jor input.fps (.num 30)).toNumber) (.num 12) (.num 120)
  let statusRaw := (input.status.getD "planned").trim
  { patchId := input.patchId.getD uuid
    videoId := (input.videoId.orElse fun _ => input.sourceId).getD "session-video"
    frameTimestampSec := jToFixed3 timestampSec
    frameIndex := jfloor (jmul timestampSec fps)
    frameFps := fps
    region := normalizeRegion input.region
    instruction := ((input.instruction.orElse fun _ => input.prompt).getD "").trim
    provider := jsToLower ((input.provider.getD "google_nano_banana").trim)
    model := (input.model.getD "gemini-3-pro-image-preview").trim
    status := if statusRaw = "" then "planned" else statusRaw
    frameOriginalUri := input.frameOriginalUri.getD ""
    frameEditedUri := input.frameEditedUri.getD ""
    diffVisualUri := input.diffVisualUri.getD ""
    propagationMethod := input.motionMethod.getD "optical_flow_reprojection"
    propagationWindowSec := clamp ((jor input.propagationWindowSec (.num (3/5))).toNumber)
      (.num (1/10)) (.num 3)
    createdAt := now
    notes := input.notes.getD "Patch layer criada. Worker de IA pode aplicar edicao e atualizar diff visual." }

/-- the persisted automation state (`automation-state.json`): five
bounded recent-history lists. Record types not embedded here are type
parameters. -/
structure AutomationState (ι μ ρ ω : Type) where
  ingestRuns : List ι
  patchLayers : List FramePatch
  motionJobs : List μ
  renderPlans : List ρ
  appliedWorkflows : List ω

/-- the patch-layer list update performed by `createFramePatch`
(src/lib/automation-engine.mjs lines 448-457): replace in place when a
stored layer has the same `patchId`, otherwise prepend; then truncate to the
300 most recent entries (`slice(0, 300)`). -/
def createFramePatchUpdate (stored : List FramePatch) (patch : FramePatch) : List FramePatch :=
  match stored.findIdx? (fun item => item.patchId == patch.patchId) with
  | some i => (stored.set i patch).take 300
  | none => (patch :: stored).take 300

/-- the state effect of `createFramePatch`. -/
def createFramePatchState (s : AutomationState ι μ ρ ω) (patch : FramePatch) :
    AutomationState ι μ ρ ω :=
  { s with patchLayers := createFramePatchUpdate s.patchLayers patch }

/-- the state effect of `runIngestAnalysis`: `unshift` then `slice(0, 50)`
on `ingestRuns` only. -/
def runIngestAnalysisState (s : AutomationState ι μ ρ ω) (analysis : ι) :
    AutomationState ι μ ρ ω :=
  { s with ingestRuns := (analysis :: s.ingestRuns).take 50 }

/-- the state effect of `createMotionReconstruction`: `unshift` then
`slice(0, 300)` on `motionJobs` only. -/
def createMotionReconstructionState (s : AutomationState ι μ ρ ω) (plan : μ) :
    AutomationState ι μ ρ ω :=
  { s with motionJobs := (plan :: s.motionJobs).take 300 }

/-- the state effect of `createIncrementalRender`: `unshift` then
`slice(0, 300)` on `renderPlans` only. -/
def createIncrementalRenderState (s : AutomationState ι μ ρ ω) (plan : ρ) :
    AutomationState ι μ ρ ω :=
  { s with renderPlans := (plan :: s.renderPlans).take 300 }

/-- the state effect of `applyTemplate`: `unshift` then `slice(0, 200)` on
`appliedWorkflows` only. -/
def applyTemplateState (s : AutomationState ι μ ρ ω) (wf : ω) :
    AutomationState ι μ ρ ω :=
  { s with appliedWorkflows := (wf :: s.appliedWorkflows).take 200 }

/-! ### src/README.md : executeIncrementalRenderRuntime

The render runtime is embedded from the server code quoted in
src/README.md (lines 1837-2035 and helpers). Filesystem and ffmpeg effects
are modelled by success oracles: `copyOk i` / `reencodeOk i` tell whether
the ffmpeg invocation for the `i`-th sorted segment succeeds, and the two
concat flags whether the stream-copy concat and the re-encode concat
succeed. The runtime path that builds a missing plan via
`buildIncrementalRenderPlan` is not re-modelled here; execution starts from
a given plan segment list. -/

/-- `RENDER_SEGMENT_MIN_SEC` (src/README.md line 142). -/
def RENDER_SEGMENT_MIN_SEC : ℚ := 1/25

/-- the fields the executor reads off one patch layer. `status` and
`assetRef` are the already-coerced strings
`String(patch?.status || '')` and
`patch?.assets?.frameEditedUri || patch?.assets?.frameEditedPath || ''`. -/
structure ExecPatch where
  frameTimestampSec : JVal
  timestampSec : JVal
  status : String
  assetRef : String

/-- `getPatchTimestampSec(patch)` from src/README.md lines 1647-1652. -/
def getPatchTimestampSec (patch : ExecPatch) : JNum :=
  match patch.frameTimestampSec.toNumber with
  | .num q => .num q
  | .nan => patch.timestampSec.toNumber

/-- the fields the executor reads off one plan segment. `mode` is `none`
for a falsy raw value (`segment.mode || 'reencode'`). -/
structure ExecSegIn where
  start : JVal
  stop : JVal
  mode : Option String

/-- the sort key `Number(a.start || 0)` of the executor's segment sort. A
NaN key makes the JavaScript comparator return NaN, whose effect is
unspecified by the sort algorithm contract; it is modelled as key 0. -/
def execSortKey (seg : ExecSegIn) : ℚ :=
  match (jor seg.start (.num 0)).toNumber with
  | .num q => q
  | .nan => 0

/-- the executor's segment sort order. -/
def byExecStart (a b : ExecSegIn) : Prop := execSortKey a ≤ execSortKey b

instance : DecidableRel byExecStart := fun a b =>
  inferInstanceAs (Decidable (execSortKey a ≤ execSortKey b))

instance : IsTotal ExecSegIn byExecStart := ⟨fun a b => le_total (execSortKey a) (execSortKey b)⟩

instance : IsTrans ExecSegIn byExecStart := ⟨fun _ _ _ h h2 => le_trans h h2⟩

/-- the segment-start normalization of the loop body:
`start = Math.max(0, Number(segment.start || 0))` and
`end = Math.max(start, Number(segment.end || 0))`. -/
def effSeg (seg : ExecSegIn) : JNum × JNum :=
  let start := jmax (.num 0) ((jor seg.start (.num 0)).toNumber)
  (start, jmax start ((jor seg.stop (.num 0)).toNumber))

/-- the planned mode string `String(segment.mode || 'reencode').toLowerCase()`. -/
def plannedMode (seg : ExecSegIn) : String := jsToLower (seg.mode.getD "reencode")

/-- the relevant-patch filter of the segment loop (src/README.md lines
1903-1910): the patch timestamp must be finite and fall within the segment
window extended by one frame on each side, the status must be `executed`,
and an edited-frame asset reference must be present. -/
def isRelevantPatch (fpsRounded : JNum) (start stop : ℚ) (patch : ExecPatch) : Bool :=
  match getPatchTimestampSec patch with
  | .nan => false
  | .num ts =>
      let inv := jdiv (.num 1) fpsRounded
      if jlt (.num ts) (jsub (.num start) inv) then false
      else if jlt (jadd (.num stop) inv) (.num ts) then false
      else (jsToLower patch.status.trim == "executed") && (patch.assetRef != "")

/-- the failure modes of the render executor. `noSegments` models the
`Render plan sem segmentos.` throw (HTTP 400), `noValidSegments` the
`Nenhum segmento valido gerado no render incremental.` throw (HTTP 422). -/
inductive RenderError where
  | noSegments
  | noValidSegments
  | segmentRenderFailed (index : ℕ)
  | concatenationFailed
  deriving DecidableEq

/-- the `EmptyRenderPlan` error class of the specification: either of the
two degenerate-plan failures. -/
def IsEmptyRenderPlan (e : RenderError) : Prop :=
  e = .noSegments ∨ e = .noValidSegments

/-- one produced `ExecutionSegment` record (file path fields omitted —
they name temporary files). -/
structure ExecutionSegment where
  index : ℕ
  start : ℚ
  stop : ℚ
  duration : ℚ
  mode : String
  patchCount : ℕ
  deriving DecidableEq

/-- the per-segment loop of `executeIncrementalRenderRuntime`
(src/README.md lines 1895-1997). `i` is the loop index (used to key the
ffmpeg oracles), `count` the number of records produced so far (the source
uses `processedSegments.length + 1` as the record index). Segments whose
effective duration is NaN or below the minimum are skipped. A copy-mode
segment without relevant patches attempts a stream copy and falls back to
re-encode on failure; every other case re-encodes, and a failed re-encode
aborts the whole job. -/
def segmentLoop (copyOk reencodeOk : ℕ → Bool) (patches : List ExecPatch) (fpsRounded : JNum) :
    List ExecSegIn → ℕ → ℕ → Except RenderError (List ExecutionSegment)
  | [], _, _ => .ok []
  | seg :: rest, i, count =>
      match effSeg seg with
      | (.num start, .num stop) =>
          let duration := stop - start
          if duration < RENDER_SEGMENT_MIN_SEC then
            segmentLoop copyOk reencodeOk patches fpsRounded rest (i + 1) count
          else
            let relevant := patches.filter (isRelevantPatch fpsRounded start stop)
            let record := fun (m : String) =>
              (⟨count + 1, roundMilli start, roundMilli stop, roundMilli duration,
                m, relevant.length⟩ : ExecutionSegment)
            let proceed := segmentLoop copyOk reencodeOk patches fpsRounded rest (i + 1) (count + 1)
            if plannedMode seg == "copy" && relevant.isEmpty then
              if copyOk i then proceed.map (record "copy" :: ·)
              else if reencodeOk i then proceed.map (record "reencode" :: ·)
              else .error (.segmentRenderFailed i)
            else
              if reencodeOk i then proceed.map (record "reencode" :: ·)
              else .error (.segmentRenderFailed i)
      | _ =>
          segmentLoop copyOk reencodeOk patches fpsRounded rest (i + 1) count

/-- `Math.max(12, Math.min(120, Math.round(Number(renderPlan.fps ||
videoInfo.fps || 30))))` (src/README.md line 1890). -/
def executorFpsRounded (planFps videoFps : JVal) : JNum :=
  jmax (.num 12) (jmin (.num 120) (jsRound ((jor planFps (jor videoFps (.num 30))).toNumber)))

/-- the render job output: the list of `ExecutionSegment` records (the
output media path is a filesystem artifact). -/
structure RenderOutput where
  segments : List ExecutionSegment
  deriving DecidableEq

/-- `executeIncrementalRenderRuntime` from src/README.md lines 1837-2035,
from the point where a plan segment list is available: sort the segments,
fail with `noSegments` when the list is empty, run the segment loop, fail
with `noValidSegments` when the loop produced no record, then concatenate
(stream copy first, full re-encode as fallback). -/
def executeIncrementalRender (planSegments : List ExecSegIn) (patches : List ExecPatch)
    (planFps videoFps : JVal) (copyOk reencodeOk : ℕ → Bool)
    (streamConcatOk reencodeConcatOk : Bool) : Except RenderError RenderOutput :=
  let segments := List.insertionSort byExecStart planSegments
  if segments.isEmpty then .error .noSegments
  else
    match segmentLoop copyOk reencodeOk patches (executorFpsRounded planFps videoFps) segments 0 0 with
    | .error e => .error e
    | .ok processed =>
        if processed.isEmpty then .error .noValidSegments
        else if streamConcatOk then .ok ⟨processed⟩
        else if reencodeConcatOk then .ok ⟨processed⟩
        else .error .concatenationFailed

/-! ### Specification-side predicates and proof-artifact definitions -/

/-- a segment list forms a contiguous chain from `c` to `D`: the first
segment starts at `c`, each segment is well-formed and starts where its
predecessor ended, and the last segment ends at `D`. For `c = 0` this is
exactly the partition property: sorted by start, contiguous, covering
`[0, D)` with no gap and no overlap. -/
def chainFrom (c D : ℚ) : List Segment → Prop
  | [] => c = D
  | s :: rest => s.start = c ∧ s.start ≤ s.stop ∧ chainFrom s.stop D rest

/-- the interleaving of changed ranges and emitted gaps that the planner's
`segments` sort reconstructs: a proof artifact mirroring `invertLoop` while
also emitting the re-encode segments in place. -/
def fusedSegs (durationSec : ℚ) (cursor : ℚ) : List RangeQ → List Segment
  | [] =>
      if cursor < durationSec then [⟨roundMilli cursor, roundMilli durationSec, .copy⟩] else []
  | r :: rest =>
      if cursor < r.start then
        ⟨roundMilli cursor, roundMilli r.start, .copy⟩ ::
          ⟨r.start, r.stop, .reencode⟩ :: fusedSegs durationSec (max cursor r.stop) rest
      else
        ⟨r.start, r.stop, .reencode⟩ :: fusedSegs durationSec (max cursor r.stop) rest

/-- the records the segment loop produces when every re-encode succeeds:
a proof artifact mirroring `segmentLoop` without the failure paths. -/
def expectedRecs (copyOk : ℕ → Bool) (patches : List ExecPatch) (fpsRounded : JNum) :
    List ExecSegIn → ℕ → ℕ → List ExecutionSegment
  | [], _, _ => []
  | seg :: rest, i, count =>
      match effSeg seg with
      | (.num start, .num stop) =>
          if stop - start < RENDER_SEGMENT_MIN_SEC then
            expectedRecs copyOk patches fpsRounded rest (i + 1) count
          else
            let relevant := patches.filter (isRelevantPatch fpsRounded start stop)
            ⟨count + 1, roundMilli start, roundMilli stop, roundMilli (stop - start),
              (if plannedMode seg == "copy" && relevant.isEmpty && copyOk i
               then "copy" else "reencode"),
              relevant.length⟩ ::
              expectedRecs copyOk patches fpsRounded rest (i + 1) (count + 1)
      | _ =>
          expectedRecs copyOk patches fpsRounded rest (i + 1) count

/-- a plan segment the executor's loop skips: its effective duration is NaN
or below `RENDER_SEGMENT_MIN_SEC`. -/
def execSkipped (seg : ExecSegIn) : Bool :=
  match effSeg seg with
  | (.num start, .num stop) => decide (stop - start < RENDER_SEGMENT_MIN_SEC)
  | _ => true

/-- the Region validity asserted by claim C5, written from the claim's
words: every field is a finite number in `[0, 1]` and width and height are
at or above the 0.01 floor. -/
def regionClaimValid (r : Region) : Prop :=
  (∃ q, r.x = .num q ∧ 0 ≤ q ∧ q ≤ 1) ∧
  (∃ q, r.y = .num q ∧ 0 ≤ q ∧ q ≤ 1) ∧
  (∃ q, r.width = .num q ∧ 1/100 ≤ q ∧ q ≤ 1) ∧
  (∃ q, r.height = .num q ∧ 1/100 ≤ q ∧ q ≤ 1)

/-- well-formedness of one merged range as established along the planner
pipeline: non-negative, ordered endpoints on the millisecond grid. -/
def RangeWF (r : RangeQ) : Prop :=
  0 ≤ r.start ∧ r.start ≤ r.stop ∧ Grid r.start ∧ Grid r.stop

/-- well-formedness of one clamped, filtered changed range relative to the
plan duration. -/
def ChangedWF (D : ℚ) (r : RangeQ) : Prop :=
  0 ≤ r.start ∧ r.start < r.stop ∧ r.stop ≤ roundMilli D ∧ Grid r.start ∧ Grid r.stop

/-- a concrete stored patch layer used in the persistence analysis,
distinguished by its frame timestamp; every one of these shares the
`patchId` "old". -/
def c8Layer (n : ℕ) : FramePatch :=
  ⟨"old", "video-1", .num n, .nan, .num 30, ⟨.num (1/10), .num (1/10), .num (2/5), .num (2/5)⟩,
   "", "google_nano_banana", "gemini-3-pro-image-preview", "planned", "", "", "",
   "optical_flow_reprojection", .num (3/5), "2026-01-01", ""⟩

/-- a concrete new patch layer with a fresh `patchId`. -/
def c8NewPatch : FramePatch := { c8Layer 0 with patchId := "new" }

/-! ## Theorems -/

/-! ### Arithmetic facts about clamping and millisecond rounding -/

theorem clamp_num (v lo hi : ℚ) :
    clamp (.num v) (.num lo) (.num hi) = .num (qclamp v lo hi) := rfl

theorem grid_zero : Grid 0 := ⟨0, by norm_num⟩

theorem roundMilli_eq (q : ℚ) : roundMilli q = ((⌊q * 1000 + 1/2⌋ : ℤ) : ℚ) / 1000 := by
  unfold roundMilli roundFix
  norm_num

theorem roundMilli_grid (q : ℚ) : Grid (roundMilli q) :=
  ⟨⌊q * 1000 + 1/2⌋, roundMilli_eq q⟩

theorem roundMilli_mono {p q : ℚ} (h : p ≤ q) : roundMilli p ≤ roundMilli q := by
  rw [roundMilli_eq, roundMilli_eq]
  have hf : ⌊p * 1000 + 1/2⌋ ≤ ⌊q * 1000 + 1/2⌋ := Int.floor_le_floor (by linarith)
  have hc : ((⌊p * 1000 + 1/2⌋ : ℤ) : ℚ) ≤ ((⌊q * 1000 + 1/2⌋ : ℤ) : ℚ) := by
    exact_mod_cast hf
  linarith

theorem roundMilli_of_grid {q : ℚ} (h : Grid q) : roundMilli q = q := by
  obtain ⟨n, rfl⟩ := h
  rw [roundMilli_eq]
  have h1 : (n : ℚ) / 1000 * 1000 + 1/2 = 1/2 + (n : ℚ) := by ring
  rw [h1, Int.floor_add_int]
  have h2 : ⌊(1:ℚ)/2⌋ = 0 := by norm_num
  rw [h2]
  push_cast
  ring

theorem roundMilli_le (q : ℚ) : roundMilli q ≤ q + 1/2000 := by
  rw [roundMilli_eq]
  have h := Int.floor_le (q * 1000 + 1/2)
  linarith

theorem lt_roundMilli (q : ℚ) : q - 1/2000 < roundMilli q := by
  rw [roundMilli_eq]
  have h := Int.lt_floor_add_one (q * 1000 + 1/2)
  linarith

theorem roundMilli_nonneg {q : ℚ} (h : 0 ≤ q) : 0 ≤ roundMilli q := by
  have h0 : roundMilli 0 = 0 := roundMilli_of_grid grid_zero
  have := roundMilli_mono h
  linarith

theorem roundMilli_lt_of_gap {a b : ℚ} (h : a + 1/1000 < b) :
    roundMilli a < roundMilli b := by
  have h1 := roundMilli_le a
  have h2 := lt_roundMilli b
  linarith

theorem grid_gap {a b : ℚ} (ha : Grid a) (hb : Grid b) (h : a < b) :
    a + 1/1000 ≤ b := by
  obtain ⟨m, rfl⟩ := ha
  obtain ⟨n, rfl⟩ := hb
  have hmn : m < n := by
    by_contra hcon
    push_neg at hcon
    have h1 : (n : ℚ) ≤ (m : ℚ) := by exact_mod_cast hcon
    have : (n : ℚ) / 1000 ≤ (m : ℚ) / 1000 := by linarith
    linarith
  have h2 : (m : ℚ) + 1 ≤ (n : ℚ) := by exact_mod_cast hmn
  have h1000 : (0:ℚ) < 1000 := by norm_num
  rw [div_add_div_same, div_le_div_iff_of_pos_right h1000]
  linarith

theorem normalizeDuration_pos (v : JVal) : 1 ≤ normalizeDuration v := by
  unfold normalizeDuration
  match v.toNumber with
  | .nan => norm_num
  | .num q =>
      simp only [qclamp]
      split
      · norm_num
      · exact le_max_left _ _

/-! ### Helper facts about clamped values -/

theorem qclamp_le {v lo hi : ℚ} (h : lo ≤ hi) : qclamp v lo hi ≤ hi := by
  unfold qclamp
  exact max_le h (min_le_left _ _)

theorem le_qclamp (v lo hi : ℚ) : lo ≤ qclamp v lo hi := le_max_left _ _

/-! ### Claim C2 : the merge example -/

/-- C2: for duration 60, fps 30, one patch at timestamp 10 with propagation
window 0.6 and no explicit ranges, the planner (merge padding 0.04) returns
changedRanges `[{9.36, 10.64}]`, unchangedRanges `[{0, 9.36}, {10.64, 60}]`,
and exactly three segments sorted by start with modes copy, reencode, copy. -/
theorem c2_merge_example :
    ∃ plan,
      buildIncrementalRenderPlan
        ⟨.num 60, .undef, .num 30, some [⟨.num 10, .undef, .num (3/5)⟩], none, none, none⟩
        "plan-1" "2026-01-01T00:00:00.000Z" = .ok plan ∧
      plan.changedRanges = [⟨9.36, 10.64⟩] ∧
      plan.unchangedRanges = [⟨0, 9.36⟩, ⟨10.64, 60⟩] ∧
      plan.segments = [⟨0, 9.36, .copy⟩, ⟨9.36, 10.64, .reencode⟩, ⟨10.64, 60, .copy⟩] := by
  refine ⟨_, rfl, ?_, ?_, ?_⟩ <;>
    norm_num [buildIncrementalRenderPlan, normalizeDuration, jor, jcoalesce, JVal.truthy,
      JVal.toNumber, clamp, jmax, jmin, jadd, jsub, qclamp, patchWindow, framesToRanges,
      readExplicitRanges, mergeRanges, mergeNormalize, mergeLoop, invertRanges, invertLoop,
      roundMilli, roundFix, List.insertionSort, List.orderedInsert, bySegStart, byStart,
      List.filterMap_cons, max_def, min_def]

/-! ### Claim C6 : the region unit-square invariant -/

theorem jlt_one_clamp_pair (xv wv : JNum) (lo : ℚ) :
    jlt (.num 1) (jadd (clamp xv (.num 0) (.num 1))
      (jmin (clamp wv (.num lo) (.num 1)) (jsub (.num 1) (clamp xv (.num 0) (.num 1))))) =
      false := by
  cases xv with
  | nan => cases wv <;> simp [clamp, jmax, jmin, jsub, jadd, jlt]
  | num vx =>
      cases wv with
      | nan => simp [clamp, jmax, jmin, jsub, jadd, jlt]
      | num vw =>
          simp only [clamp, jmax, jmin, jsub, jadd, jlt]
          have h2 : min (max lo (min 1 vw)) (1 - max 0 (min 1 vx)) ≤ 1 - max 0 (min 1 vx) :=
            min_le_right _ _
          simp only [decide_eq_false_iff_not, not_lt]
          linarith

/-- C6: for every input, including negative values and values greater than
1, the Region returned by normalizeRegion never satisfies `x + width > 1`
and never satisfies `y + height > 1` (JavaScript comparison: false when a
side is NaN). -/
theorem c6_region_invariant (input : Option RegionInput) :
    jlt (.num 1) (jadd (normalizeRegion input).x (normalizeRegion input).width) = false ∧
    jlt (.num 1) (jadd (normalizeRegion input).y (normalizeRegion input).height) = false := by
  simp only [normalizeRegion]
  exact ⟨jlt_one_clamp_pair _ _ _, jlt_one_clamp_pair _ _ _⟩

/-! ### Claim C5 : normalizeRegion validity -/

/-- C5 counterexample: a region whose `x` field is a truthy non-numeric
value (for example the string "abc", which `Number()` coerces to NaN) is
not replaced by the default — `clamp` propagates NaN, so the returned
Region violates the claimed validity property. -/
theorem c5_counterexample :
    ¬ regionClaimValid (normalizeRegion (some ⟨.misc true .nan, .undef, .undef, .undef⟩)) := by
  intro h
  obtain ⟨⟨q, hx, _, _⟩, _⟩ := h
  have hnan : (normalizeRegion (some ⟨.misc true .nan, .undef, .undef, .undef⟩)).x = .nan := rfl
  rw [hnan] at hx
  exact JNum.noConfusion hx

/-- C5 as amended: a nullish (missing) field is replaced by its default;
when every supplied field coerces to a finite number, all four returned
fields are finite and lie in `[0, 1]`, and width and height are at least
`min(0.01, 1 - x)` and `min(0.01, 1 - y)` respectively (the 0.01 floor can
be undercut by the unit-square cap). -/
theorem c5_amended (input : Option RegionInput)
    (hx : (jcoalesce (input.getD .empty).x (.num (1/10))).toNumber ≠ .nan)
    (hy : (jcoalesce (input.getD .empty).y (.num (1/10))).toNumber ≠ .nan)
    (hw : (jcoalesce (input.getD .empty).width (.num (2/5))).toNumber ≠ .nan)
    (hh : (jcoalesce (input.getD .empty).height (.num (2/5))).toNumber ≠ .nan) :
    ∃ qx qy qw qh,
      normalizeRegion input = ⟨.num qx, .num qy, .num qw, .num qh⟩ ∧
      0 ≤ qx ∧ qx ≤ 1 ∧ 0 ≤ qy ∧ qy ≤ 1 ∧
      0 ≤ qw ∧ qw ≤ 1 ∧ min (1/100) (1 - qx) ≤ qw ∧
      0 ≤ qh ∧ qh ≤ 1 ∧ min (1/100) (1 - qy) ≤ qh ∧
      (((input.getD .empty).x = .undef ∨ (input.getD .empty).x = .jnull) → qx = 1/10) ∧
      (((input.getD .empty).y = .undef ∨ (input.getD .empty).y = .jnull) → qy = 1/10) ∧
      (((input.getD .empty).width = .undef ∨ (input.getD .empty).width = .jnull) →
        qw = min (2/5) (1 - qx)) ∧
      (((input.getD .empty).height = .undef ∨ (input.getD .empty).height = .jnull) →
        qh = min (2/5) (1 - qy)) := by
  set region := input.getD .empty with hregion
  obtain ⟨vx, hvx⟩ : ∃ v, (jcoalesce region.x (.num (1/10))).toNumber = .num v := by
    cases hc : (jcoalesce region.x (.num (1/10))).toNumber with
    | num v => exact ⟨v, rfl⟩
    | nan => exact absurd hc hx
  obtain ⟨vy, hvy⟩ : ∃ v, (jcoalesce region.y (.num (1/10))).toNumber = .num v := by
    cases hc : (jcoalesce region.y (.num (1/10))).toNumber with
    | num v => exact ⟨v, rfl⟩
    | nan => exact absurd hc hy
  obtain ⟨vw, hvw⟩ : ∃ v, (jcoalesce region.width (.num (2/5))).toNumber = .num v := by
    cases hc : (jcoalesce region.width (.num (2/5))).toNumber with
    | num v => exact ⟨v, rfl⟩
    | nan => exact absurd hc hw
  obtain ⟨vh, hvh⟩ : ∃ v, (jcoalesce region.height (.num (2/5))).toNumber = .num v := by
    cases hc : (jcoalesce region.height (.num (2/5))).toNumber with
    | num v => exact ⟨v, rfl⟩
    | nan => exact absurd hc hh
  refine ⟨qclamp vx 0 1, qclamp vy 0 1,
    min (qclamp vw (1/100) 1) (1 - qclamp vx 0 1),
    min (qclamp vh (1/100) 1) (1 - qclamp vy 0 1), ?_, ?_, ?_, ?_, ?_, ?_, ?_, ?_, ?_, ?_, ?_,
    ?_, ?_, ?_, ?_⟩
  · simp only [normalizeRegion, ← hregion, hvx, hvy, hvw, hvh, clamp, jmax, jmin, jsub, jadd]
    rfl
  · exact le_qclamp _ _ _
  · exact qclamp_le (by norm_num)
  · exact le_qclamp _ _ _
  · exact qclamp_le (by norm_num)
  · have h1 : (0:ℚ) ≤ qclamp vw (1/100) 1 := le_trans (by norm_num) (le_qclamp _ _ _)
    have h2 : qclamp vx 0 1 ≤ 1 := qclamp_le (by norm_num)
    exact le_min h1 (by linarith)
  · exact le_trans (min_le_left _ _) (qclamp_le (by norm_num))
  · exact min_le_min (le_qclamp _ _ _) le_rfl
  · have h1 : (0:ℚ) ≤ qclamp vh (1/100) 1 := le_trans (by norm_num) (le_qclamp _ _ _)
    have h2 : qclamp vy 0 1 ≤ 1 := qclamp_le (by norm_num)
    exact le_min h1 (by linarith)
  · exact le_trans (min_le_left _ _) (qclamp_le (by norm_num))
  · exact min_le_min (le_qclamp _ _ _) le_rfl
  · intro hnull
    have : (jcoalesce region.x (.num (1/10))).toNumber = .num (1/10) := by
      rcases hnull with h | h <;> rw [h] <;> rfl
    rw [this] at hvx
    cases hvx
    norm_num [qclamp]
  · intro hnull
    have : (jcoalesce region.y (.num (1/10))).toNumber = .num (1/10) := by
      rcases hnull with h | h <;> rw [h] <;> rfl
    rw [this] at hvy
    cases hvy
    norm_num [qclamp]
  · intro hnull
    have : (jcoalesce region.width (.num (2/5))).toNumber = .num (2/5) := by
      rcases hnull with h | h <;> rw [h] <;> rfl
    rw [this] at hvw
    cases hvw
    norm_num [qclamp]
  · intro hnull
    have : (jcoalesce region.height (.num (2/5))).toNumber = .num (2/5) := by
      rcases hnull with h | h <;> rw [h] <;> rfl
    rw [this] at hvh
    cases hvh
    norm_num [qclamp]

/-- witness for C5 as amended, at a concrete input with a large `x`, a
missing `y`, a negative `width` and a null `height`. -/
theorem c5_amended_witness :
    ((jcoalesce ((some (⟨.num 5, .undef, .num (-3), .jnull⟩ : RegionInput)).getD
        RegionInput.empty).x (.num (1/10))).toNumber ≠ .nan) ∧
    (∃ qx qy qw qh,
      normalizeRegion (some ⟨.num 5, .undef, .num (-3), .jnull⟩) =
        ⟨.num qx, .num qy, .num qw, .num qh⟩ ∧
      0 ≤ qx ∧ qx ≤ 1 ∧ 0 ≤ qy ∧ qy ≤ 1 ∧
      0 ≤ qw ∧ qw ≤ 1 ∧ min (1/100) (1 - qx) ≤ qw ∧
      0 ≤ qh ∧ qh ≤ 1 ∧ min (1/100) (1 - qy) ≤ qh ∧
      ((((some (⟨.num 5, .undef, .num (-3), .jnull⟩ : RegionInput)).getD
          RegionInput.empty).x = .undef ∨
        (((some (⟨.num 5, .undef, .num (-3), .jnull⟩ : RegionInput)).getD
          RegionInput.empty).x = .jnull)) → qx = 1/10) ∧
      ((((some (⟨.num 5, .undef, .num (-3), .jnull⟩ : RegionInput)).getD
          RegionInput.empty).y = .undef ∨
        (((some (⟨.num 5, .undef, .num (-3), .jnull⟩ : RegionInput)).getD
          RegionInput.empty).y = .jnull)) → qy = 1/10) ∧
      ((((some (⟨.num 5, .undef, .num (-3), .jnull⟩ : RegionInput)).getD
          RegionInput.empty).width = .undef ∨
        (((some (⟨.num 5, .undef, .num (-3), .jnull⟩ : RegionInput)).getD
          RegionInput.empty).width = .jnull)) → qw = min (2/5) (1 - qx)) ∧
      ((((some (⟨.num 5, .undef, .num (-3), .jnull⟩ : RegionInput)).getD
          RegionInput.empty).height = .undef ∨
        (((some (⟨.num 5, .undef, .num (-3), .jnull⟩ : RegionInput)).getD
          RegionInput.empty).height = .jnull)) → qh = min (2/5) (1 - qy))) :=
  ⟨fun h => JNum.noConfusion h,
   c5_amended (some ⟨.num 5, .undef, .num (-3), .jnull⟩)
     (fun h => JNum.noConfusion h) (fun h => JNum.noConfusion h)
     (fun h => JNum.noConfusion h) (fun h => JNum.noConfusion h)⟩

/-! ### Claim C7 : the default propagation radius -/

/-- C7 counterexample: a patch at timestamp 10 with no supplied propagation
window. The claim says the planner derives the window with the default
radius 0.6, i.e. `[9.4, 10.6]`; the code uses the default 0.55 and derives
`[9.45, 10.55]`. -/
theorem c7_counterexample :
    patchWindow 60 ⟨.num 10, .undef, .undef⟩ = some ⟨.num (9.45), .num (10.55)⟩ ∧
    patchWindow 60 ⟨.num 10, .undef, .undef⟩ ≠ some ⟨.num (9.4), .num (10.6)⟩ := by
  constructor
  · norm_num [patchWindow, jcoalesce, JVal.toNumber, jor, JVal.truthy, clamp, jmax, jmin,
      jadd, jsub, max_def, min_def]
  · intro h
    rw [(by norm_num [patchWindow, jcoalesce, JVal.toNumber, jor, JVal.truthy, clamp, jmax,
      jmin, jadd, jsub, max_def, min_def] :
        patchWindow 60 ⟨.num 10, .undef, .undef⟩ = some ⟨.num (9.45), .num (10.55)⟩)] at h
    simp only [Option.some.injEq, JRange.mk.injEq, JNum.num.injEq] at h
    norm_num at h

/-- C7 as amended: when `propagation.windowSec` is absent (falsy), the
patch-record builder `buildFramePatchResult` uses the default radius 0.6 s,
but the planner `buildIncrementalRenderPlan` derives the patch window with
the default radius 0.55 s; both defaults are clamped to `[0.1, 3]`. -/
theorem c7_amended :
    (∀ (durationSec ts : ℚ) (tsv w : JVal), w.truthy = false →
      patchWindow durationSec ⟨.num ts, tsv, w⟩ =
        some ⟨.num (max 0 (ts - 11/20)), .num (min durationSec (ts + 11/20))⟩) ∧
    (∀ (input : FramePatchInput) (uuid now : String),
      input.propagationWindowSec.truthy = false →
      (buildFramePatchResult input uuid now).propagationWindowSec = .num (3/5)) := by
  constructor
  · intro durationSec ts tsv w hw
    simp [patchWindow, jcoalesce, JVal.toNumber, jor, hw, clamp, jmax, jmin, jadd, jsub]
    norm_num [max_def, min_def]
  · intro input uuid now hw
    simp [buildFramePatchResult, jor, hw, JVal.toNumber, clamp, jmax, jmin]
    norm_num [max_def, min_def]

/-- witness for C7 as amended at concrete inputs: the planner window for a
patch at timestamp 10 in a 60 s video, and the builder's stored window,
both with the window field absent. -/
theorem c7_amended_witness :
    ((JVal.undef).truthy = false ∧
      patchWindow 60 ⟨.num 10, .undef, .undef⟩ =
        some ⟨.num (max 0 (10 - 11/20)), .num (min 60 (10 + 11/20))⟩) ∧
    ((FramePatchInput.empty).propagationWindowSec.truthy = false ∧
      (buildFramePatchResult .empty "uuid-1" "2026-01-01").propagationWindowSec = .num (3/5)) :=
  ⟨⟨rfl, c7_amended.1 60 10 .undef .undef rfl⟩,
   ⟨rfl, c7_amended.2 .empty "uuid-1" "2026-01-01" rfl⟩⟩

/-! ### Claims C9 and C10 : planner totality and determinism -/

theorem readExplicitRanges_ok {l : List ChangedRangeInput}
    (h : ∀ e ∈ l, e ≠ ChangedRangeInput.nullish) :
    ∃ rs, readExplicitRanges l = .ok rs := by
  induction l with
  | nil => exact ⟨[], rfl⟩
  | cons e rest ih =>
      obtain ⟨rs, hrs⟩ := ih fun x hx => h x (List.mem_cons_of_mem _ hx)
      cases e with
      | nullish => exact absurd rfl (h _ (List.mem_cons_self _ _))
      | obj s t =>
          refine ⟨⟨s.toNumber, t.toNumber⟩ :: rs, ?_⟩
          simp [readExplicitRanges, hrs, Except.map]

/-- C9 counterexample: a payload whose `changedRanges` array contains a
null element. The planner reads `range.start` on it, which throws a
TypeError — `buildIncrementalRenderPlan` is not total over malformed
payloads. -/
theorem c9_counterexample :
    ∃ msg, buildIncrementalRenderPlan
      ⟨.num 60, .undef, .num 30, none, some [.nullish], none, none⟩ "plan-1" "now" =
      .error msg := by
  exact ⟨_, rfl⟩

/-- C9 as amended: `buildIncrementalRenderPlan` returns a RenderPlan and
never throws for every payload — with any combination of missing, malformed
or out-of-range `durationSec`, `fps`, `patchLayers`, `changedFrames` and
`outputProfiles` fields — provided no element of `changedRanges` is
nullish. -/
theorem c9_amended (payload : PlanPayload) (uuid now : String)
    (h : ∀ e ∈ payload.changedRanges.getD [], e ≠ ChangedRangeInput.nullish) :
    ∃ plan, buildIncrementalRenderPlan payload uuid now = .ok plan := by
  obtain ⟨rs, hrs⟩ := readExplicitRanges_ok h
  unfold buildIncrementalRenderPlan
  rw [hrs]
  exact ⟨_, rfl⟩

/-- witness for C9 as amended, at a payload exercising malformed fields
(non-numeric duration, NaN fps, a patch layer, an explicit range with a NaN
endpoint, frame indices, and a non-array profile list). -/
theorem c9_amended_witness :
    (∀ e ∈ (some [ChangedRangeInput.obj (.num 3) .nan] : Option (List ChangedRangeInput)).getD [],
      e ≠ ChangedRangeInput.nullish) ∧
    ∃ plan, buildIncrementalRenderPlan
      ⟨.misc true .nan, .jnull, .misc true .nan, some [⟨.nan, .num (-5), .num 100⟩],
        some [.obj (.num 3) .nan], some [.num (2.5), .undef], none⟩
      "plan-2" "2026-01-01" = .ok plan := by
  refine ⟨?_, c9_amended _ "plan-2" "2026-01-01" ?_⟩ <;>
    · intro e he
      simp only [Option.getD_some, List.mem_singleton] at he
      subst he
      intro hcon
      exact ChangedRangeInput.noConfusion hcon

theorem buildPlan_trivial_ok (uuid now : String) :
    ∃ plan, buildIncrementalRenderPlan ⟨.undef, .undef, .undef, none, none, none, none⟩
      uuid now = .ok plan := by
  unfold buildIncrementalRenderPlan
  exact ⟨_, rfl⟩

/-- C10: the planner is deterministic — two calls with an identical payload
produce identical `segments` lists (same ranges, same order, same modes),
whatever the effectful `randomUUID()` and `Date` values are. -/
theorem c10_determinism (payload : PlanPayload) (u1 t1 u2 t2 : String)
    (p1 p2 : RenderPlan)
    (h1 : buildIncrementalRenderPlan payload u1 t1 = .ok p1)
    (h2 : buildIncrementalRenderPlan payload u2 t2 = .ok p2) :
    p1.segments = p2.segments := by
  unfold buildIncrementalRenderPlan at h1 h2
  cases hres : readExplicitRanges (payload.changedRanges.getD []) with
  | error e =>
      rw [hres] at h1
      exact Except.noConfusion h1
  | ok l =>
      rw [hres] at h1 h2
      simp only [Except.ok.injEq] at h1 h2
      rw [← h1, ← h2]

/-- witness for C10 at a concrete payload and two distinct uuid/time
pairs. -/
theorem c10_witness :
    ∃ p1 p2, buildIncrementalRenderPlan ⟨.undef, .undef, .undef, none, none, none, none⟩
        "uuid-a" "t-a" = .ok p1 ∧
      buildIncrementalRenderPlan ⟨.undef, .undef, .undef, none, none, none, none⟩
        "uuid-b" "t-b" = .ok p2 ∧
      p1.segments = p2.segments := by
  obtain ⟨p1, hp1⟩ := buildPlan_trivial_ok "uuid-a" "t-a"
  obtain ⟨p2, hp2⟩ := buildPlan_trivial_ok "uuid-b" "t-b"
  exact ⟨p1, p2, hp1, hp2, c10_determinism _ _ _ _ _ _ _ hp1 hp2⟩

/-! ### Claim C8 : patch-layer persistence -/

theorem findIdx?_none_of_all {α : Type} {p : α → Bool} :
    ∀ (l : List α) (i : ℕ), (∀ x ∈ l, p x = false) → List.findIdx? p l i = none := by
  intro l
  induction l with
  | nil => intro i _; rfl
  | cons a rest ih =>
      intro i h
      rw [List.findIdx?_cons, h a (List.mem_cons_self _ _)]
      simp only [Bool.false_eq_true, if_false]
      exact ih (i + 1) fun x hx => h x (List.mem_cons_of_mem _ hx)

theorem findIdx?_some_spec {α : Type} {p : α → Bool} :
    ∀ (l : List α) (i j : ℕ), List.findIdx? p l i = some j →
      i ≤ j ∧ ∃ x, l.get? (j - i) = some x ∧ p x = true := by
  intro l
  induction l with
  | nil => intro i j h; exact absurd h (by simp [List.findIdx?])
  | cons a rest ih =>
      intro i j h
      rw [List.findIdx?_cons] at h
      by_cases hp : p a
      · rw [if_pos hp] at h
        cases h
        exact ⟨le_rfl, a, by simp, hp⟩
      · rw [if_neg hp] at h
        obtain ⟨hij, x, hx, hpx⟩ := ih (i + 1) j h
        refine ⟨by omega, x, ?_, hpx⟩
        have hsub : j - i = (j - (i + 1)) + 1 := by omega
        rw [hsub]
        simpa using hx

/-- C8 counterexample: with 300 stored patch layers (ids all different from
the new patch's id), `createFramePatch` prepends the new layer and the
`slice(0, 300)` cap silently deletes the oldest stored layer — refuting
"no other stored patch layer is ever deleted". -/
theorem c8_counterexample :
    c8Layer 299 ∈ (List.range 300).map c8Layer ∧
    c8Layer 299 ∉ createFramePatchUpdate ((List.range 300).map c8Layer) c8NewPatch := by
  constructor
  · exact List.mem_map.mpr ⟨299, List.mem_range.mpr (by norm_num), rfl⟩
  · have hfind : ((List.range 300).map c8Layer).findIdx?
        (fun item => item.patchId == c8NewPatch.patchId) = none := by
      apply findIdx?_none_of_all
      intro x hx
      obtain ⟨k, _, rfl⟩ := List.mem_map.mp hx
      show (("old" : String) == "new") = false
      decide
    unfold createFramePatchUpdate
    rw [hfind]
    intro hmem
    rw [show (300 = 299 + 1) from rfl, List.take_succ_cons] at hmem
    rcases List.mem_cons.mp hmem with h | h
    · have := congrArg FramePatch.patchId h
      simp only [c8Layer, c8NewPatch] at this
      exact absurd this (by decide)
    · rw [← List.map_take, List.take_range] at h
      obtain ⟨k, hk, heq⟩ := List.mem_map.mp h
      rw [List.mem_range] at hk
      have hk299 : k < 299 := lt_of_lt_of_le hk (by norm_num)
      have hts := congrArg FramePatch.frameTimestampSec heq
      simp only [c8Layer, JNum.num.injEq] at hts
      have : k = 299 := by exact_mod_cast hts
      omega

/-- C8 as amended: `createFramePatch` replaces a stored layer with the same
`patchId` in place (same id, same list position) and otherwise prepends a
new layer; the stored list is then truncated to its 300 most recent entries
(`slice(0, 300)`), which silently deletes the oldest layer when the cap is
exceeded — this cap is the only way a stored layer is removed, and no other
engine operation touches the patch-layer list at all. -/
theorem c8_amended :
    (∀ (stored : List FramePatch) (patch : FramePatch) (i : ℕ),
      stored.findIdx? (fun item => item.patchId == patch.patchId) = some i →
      (∃ old, stored.get? i = some old ∧ old.patchId = patch.patchId) ∧
      (stored.length ≤ 300 →
        createFramePatchUpdate stored patch = stored.set i patch)) ∧
    (∀ (stored : List FramePatch) (patch : FramePatch),
      stored.findIdx? (fun item => item.patchId == patch.patchId) = none →
      createFramePatchUpdate stored patch = (patch :: stored).take 300 ∧
      (stored.length < 300 → createFramePatchUpdate stored patch = patch :: stored)) ∧
    (∀ (ι μ ρ ω : Type) (s : AutomationState ι μ ρ ω) (a : ι) (m : μ) (r : ρ) (w : ω)
        (patch : FramePatch),
      (runIngestAnalysisState s a).patchLayers = s.patchLayers ∧
      (createMotionReconstructionState s m).patchLayers = s.patchLayers ∧
      (createIncrementalRenderState s r).patchLayers = s.patchLayers ∧
      (applyTemplateState s w).patchLayers = s.patchLayers ∧
      (createFramePatchState s patch).patchLayers =
        createFramePatchUpdate s.patchLayers patch) := by
  refine ⟨?_, ?_, ?_⟩
  · intro stored patch i hidx
    obtain ⟨-, x, hx, hpx⟩ := findIdx?_some_spec stored 0 i hidx
    rw [Nat.sub_zero] at hx
    constructor
    · exact ⟨x, hx, by simpa using hpx⟩
    · intro hlen
      unfold createFramePatchUpdate
      rw [hidx]
      exact List.take_of_length_le (by rw [List.length_set]; exact hlen)
  · intro stored patch hidx
    unfold createFramePatchUpdate
    rw [hidx]
    exact ⟨rfl, fun hlen => List.take_of_length_le (by simp; omega)⟩
  · intro ι μ ρ ω s a m r w patch
    exact ⟨rfl, rfl, rfl, rfl, rfl⟩

/-- witness for C8 as amended: adding a fresh-id patch to a one-element
store prepends it and deletes nothing. -/
theorem c8_amended_witness :
    ([c8Layer 0].findIdx? (fun item => item.patchId == c8NewPatch.patchId) = none) ∧
    (createFramePatchUpdate [c8Layer 0] c8NewPatch = (c8NewPatch :: [c8Layer 0]).take 300 ∧
      ([c8Layer 0].length < 300 →
        createFramePatchUpdate [c8Layer 0] c8NewPatch = c8NewPatch :: [c8Layer 0])) := by
  have hnone : [c8Layer 0].findIdx? (fun item => item.patchId == c8NewPatch.patchId) = none := by
    decide
  exact ⟨hnone, c8_amended.2.1 [c8Layer 0] c8NewPatch hnone⟩

/-! ### Claims C3 and C4 : executor fallback and zero-segment rejection -/

theorem segmentLoop_skip_all (copyOk reencodeOk : ℕ → Bool) (patches : List ExecPatch)
    (fpsRounded : JNum) :
    ∀ (segs : List ExecSegIn) (i count : ℕ), (∀ seg ∈ segs, execSkipped seg = true) →
      segmentLoop copyOk reencodeOk patches fpsRounded segs i count = .ok [] := by
  intro segs
  induction segs with
  | nil => intro i count _; rfl
  | cons seg rest ih =>
      intro i count h
      have hseg := h seg (List.mem_cons_self _ _)
      have hrest := fun x hx => h x (List.mem_cons_of_mem _ hx)
      unfold segmentLoop
      unfold execSkipped at hseg
      rcases heff : effSeg seg with ⟨sN, eN⟩
      rw [heff] at hseg
      cases sN with
      | nan => exact ih (i + 1) count hrest
      | num s =>
          cases eN with
          | nan => exact ih (i + 1) count hrest
          | num e =>
              simp only [decide_eq_true_eq] at hseg
              dsimp only
              rw [if_pos hseg]
              exact ih (i + 1) count hrest

theorem segmentLoop_ok (copyOk reencodeOk : ℕ → Bool) (patches : List ExecPatch)
    (fpsRounded : JNum) (hre : ∀ j, reencodeOk j = true) :
    ∀ (segs : List ExecSegIn) (i count : ℕ),
      segmentLoop copyOk reencodeOk patches fpsRounded segs i count =
        .ok (expectedRecs copyOk patches fpsRounded segs i count) := by
  intro segs
  induction segs with
  | nil => intro i count; rfl
  | cons seg rest ih =>
      intro i count
      unfold segmentLoop expectedRecs
      rcases heff : effSeg seg with ⟨sN, eN⟩
      cases sN with
      | nan => exact ih (i + 1) count
      | num s =>
          cases eN with
          | nan => exact ih (i + 1) count
          | num e =>
              dsimp only
              by_cases hdur : e - s < RENDER_SEGMENT_MIN_SEC
              · rw [if_pos hdur, if_pos hdur]
                exact ih (i + 1) count
              · rw [if_neg hdur, if_neg hdur]
                by_cases hcopy : ((plannedMode seg == "copy") &&
                    (patches.filter (isRelevantPatch fpsRounded s e)).isEmpty) = true
                · rw [if_pos hcopy]
                  by_cases hok : copyOk i = true
                  · rw [if_pos hok, ih (i + 1) (count + 1)]
                    simp [Except.map, hcopy, hok]
                  · have hok2 : copyOk i = false := Bool.eq_false_iff.mpr hok
                    rw [if_neg hok, if_pos (hre i), ih (i + 1) (count + 1)]
                    simp [Except.map, hok2]
                · have hab : ((plannedMode seg == "copy") &&
                      (patches.filter (isRelevantPatch fpsRounded s e)).isEmpty) = false :=
                    Bool.eq_false_iff.mpr hcopy
                  rw [if_neg hcopy, if_pos (hre i), ih (i + 1) (count + 1)]
                  simp [Except.map, hab]

theorem mem_expectedRecs (copyOk : ℕ → Bool) (patches : List ExecPatch) (fpsRounded : JNum) :
    ∀ (segs : List ExecSegIn) (i count j : ℕ) (seg : ExecSegIn) (s e : ℚ),
      segs.get? j = some seg → effSeg seg = (.num s, .num e) →
      ¬ (e - s < RENDER_SEGMENT_MIN_SEC) →
      ∃ n, (⟨n, roundMilli s, roundMilli e, roundMilli (e - s),
        (if plannedMode seg == "copy" &&
            (patches.filter (isRelevantPatch fpsRounded s e)).isEmpty && copyOk (i + j)
         then "copy" else "reencode"),
        (patches.filter (isRelevantPatch fpsRounded s e)).length⟩ : ExecutionSegment) ∈
        expectedRecs copyOk patches fpsRounded segs i count := by
  intro segs
  induction segs with
  | nil => intro i count j seg s e hget; exact absurd hget (by simp)
  | cons head rest ih =>
      intro i count j seg s e hget heff hdur
      cases j with
      | zero =>
          rw [List.get?_cons_zero, Option.some.injEq] at hget
          subst hget
          unfold expectedRecs
          rw [heff]
          dsimp only
          rw [if_neg hdur]
          exact ⟨count + 1, List.mem_cons_self _ _⟩
      | succ j0 =>
          rw [List.get?_cons_succ] at hget
          have hstep : i + (j0 + 1) = (i + 1) + j0 := by omega
          rw [hstep]
          unfold expectedRecs
          rcases heff0 : effSeg head with ⟨sN, eN⟩
          cases sN with
          | nan => exact ih (i + 1) count j0 seg s e hget heff hdur
          | num s0 =>
              cases eN with
              | nan => exact ih (i + 1) count j0 seg s e hget heff hdur
              | num e0 =>
                  dsimp only
                  by_cases hd0 : e0 - s0 < RENDER_SEGMENT_MIN_SEC
                  · rw [if_pos hd0]
                    exact ih (i + 1) count j0 seg s e hget heff hdur
                  · rw [if_neg hd0]
                    obtain ⟨n, hn⟩ := ih (i + 1) (count + 1) j0 seg s e hget heff hdur
                    exact ⟨n, List.mem_cons_of_mem _ hn⟩

/-- C3: for every plan whose sorted segment list has, at position `i`, a
valid (not skipped) segment planned as `copy` with no relevant patches, and
assuming every re-encode invocation succeeds and the stream concat
succeeds, the job completes; if the stream-copy attempt for that segment
fails, the segment is still executed and recorded with mode "reencode",
and if the copy succeeds the segment is recorded with mode "copy" — the
fallback applies to that segment only. -/
theorem c3_copy_fallback (planSegments : List ExecSegIn) (patches : List ExecPatch)
    (planFps videoFps : JVal) (copyOk reencodeOk : ℕ → Bool) (rcOk : Bool)
    (i : ℕ) (seg : ExecSegIn) (s e : ℚ)
    (hre : ∀ j, reencodeOk j = true)
    (hget : (List.insertionSort byExecStart planSegments).get? i = some seg)
    (heff : effSeg seg = (.num s, .num e))
    (hdur : ¬ (e - s < RENDER_SEGMENT_MIN_SEC))
    (hmode : plannedMode seg = "copy")
    (hnop : patches.filter (isRelevantPatch (executorFpsRounded planFps videoFps) s e) = []) :
    ∃ out, executeIncrementalRender planSegments patches planFps videoFps copyOk reencodeOk
        true rcOk = .ok out ∧
      (copyOk i = false →
        ∃ n, (⟨n, roundMilli s, roundMilli e, roundMilli (e - s), "reencode", 0⟩ :
          ExecutionSegment) ∈ out.segments) ∧
      (copyOk i = true →
        ∃ n, (⟨n, roundMilli s, roundMilli e, roundMilli (e - s), "copy", 0⟩ :
          ExecutionSegment) ∈ out.segments) := by
  set sorted := List.insertionSort byExecStart planSegments with hsorted
  set fpsR := executorFpsRounded planFps videoFps with hfps
  obtain ⟨n, hn⟩ := mem_expectedRecs copyOk patches fpsR sorted 0 0 i seg s e hget heff hdur
  rw [Nat.zero_add] at hn
  have hne : expectedRecs copyOk patches fpsR sorted 0 0 ≠ [] := List.ne_nil_of_mem hn
  have hnonempty : sorted.isEmpty = false := by
    cases hs : sorted with
    | nil => rw [hs] at hget; exact absurd hget (by simp)
    | cons a l => rfl
  refine ⟨⟨expectedRecs copyOk patches fpsR sorted 0 0⟩, ?_, ?_, ?_⟩
  · unfold executeIncrementalRender
    dsimp only
    rw [← hsorted, ← hfps, hnonempty]
    simp only [Bool.false_eq_true, if_false]
    rw [segmentLoop_ok copyOk reencodeOk patches fpsR hre sorted 0 0]
    have hie : (expectedRecs copyOk patches fpsR sorted 0 0).isEmpty = false := by
      cases hE : expectedRecs copyOk patches fpsR sorted 0 0 with
      | nil => exact absurd hE hne
      | cons a l => rfl
    dsimp only
    rw [hie]
    simp
  · intro hfail
    refine ⟨n, ?_⟩
    rw [hnop] at hn
    simpa [hmode, hfail] using hn
  · intro hok
    refine ⟨n, ?_⟩
    rw [hnop] at hn
    simpa [hmode, hok] using hn

/-- witness for C3 at a concrete two-segment copy plan whose first
stream-copy invocation fails: the job completes and the first segment is
recorded as re-encoded. -/
theorem c3_copy_fallback_witness :
    ∃ out, executeIncrementalRender
        [⟨.num 0, .num 5, some "copy"⟩, ⟨.num 5, .num 10, some "copy"⟩] [] (.num 30) .undef
        (fun j => decide (j = 1)) (fun _ => true) true true = .ok out ∧
      ∃ n, (⟨n, roundMilli 0, roundMilli 5, roundMilli (5 - 0), "reencode", 0⟩ :
        ExecutionSegment) ∈ out.segments := by
  obtain ⟨out, hout, hfail, -⟩ := c3_copy_fallback
    [⟨.num 0, .num 5, some "copy"⟩, ⟨.num 5, .num 10, some "copy"⟩] [] (.num 30) .undef
    (fun j => decide (j = 1)) (fun _ => true) true 0 ⟨.num 0, .num 5, some "copy"⟩ 0 5
    (fun _ => rfl)
    (by norm_num [List.insertionSort, List.orderedInsert, byExecStart, execSortKey, jor,
      JVal.toNumber, JVal.truthy])
    (by norm_num [effSeg, jor, JVal.toNumber, JVal.truthy, jmax, max_def])
    (by norm_num [RENDER_SEGMENT_MIN_SEC])
    (by decide)
    rfl
  exact ⟨out, hout, hfail (by decide)⟩

/-- C4: a render job whose plan has an empty segments list, or all of whose
segments are skipped by the loop (effective duration below the 0.04 s
minimum or NaN), fails with one of the two EmptyRenderPlan errors and never
succeeds. -/
theorem c4_zero_segment_rejection (planSegments : List ExecSegIn) (patches : List ExecPatch)
    (planFps videoFps : JVal) (copyOk reencodeOk : ℕ → Bool) (scOk rcOk : Bool)
    (h : planSegments = [] ∨ ∀ seg ∈ planSegments, execSkipped seg = true) :
    ∃ e, executeIncrementalRender planSegments patches planFps videoFps copyOk reencodeOk
        scOk rcOk = .error e ∧ IsEmptyRenderPlan e := by
  unfold executeIncrementalRender
  dsimp only
  rcases h with rfl | hall
  · exact ⟨.noSegments, rfl, Or.inl rfl⟩
  · cases hs : (List.insertionSort byExecStart planSegments).isEmpty with
    | true =>
        exact ⟨.noSegments, rfl, Or.inl rfl⟩
    | false =>
        have hallSorted : ∀ seg ∈ List.insertionSort byExecStart planSegments,
            execSkipped seg = true := fun seg hseg =>
          hall seg ((List.perm_insertionSort byExecStart planSegments).mem_iff.mp hseg)
        rw [segmentLoop_skip_all copyOk reencodeOk patches
          (executorFpsRounded planFps videoFps) _ 0 0 hallSorted]
        exact ⟨.noValidSegments, rfl, Or.inr rfl⟩

/-- witness for C4: a plan whose single segment lasts 0.01 s is rejected
with an EmptyRenderPlan error. -/
theorem c4_zero_segment_rejection_witness :
    ∃ e, executeIncrementalRender [⟨.num 0, .num (1/100), some "copy"⟩] [] (.num 30) .undef
        (fun _ => true) (fun _ => true) true true = .error e ∧ IsEmptyRenderPlan e :=
  c4_zero_segment_rejection [⟨.num 0, .num (1/100), some "copy"⟩] [] (.num 30) .undef
    (fun _ => true) (fun _ => true) true true
    (Or.inr (by
      intro seg hseg
      simp only [List.mem_singleton] at hseg
      subst hseg
      norm_num [execSkipped, effSeg, jor, JVal.toNumber, JVal.truthy, jmax, max_def,
        RENDER_SEGMENT_MIN_SEC]))

/-! ### Claim C1 : the partition invariant of the planner

The proof walks the planner pipeline: `mergeRanges` produces well-formed
ranges separated by strictly more than the merge tolerance; clamping to the
duration and dropping short ranges preserves strict separation; the
interleaving `fusedSegs` of changed ranges and inverted gaps forms a
contiguous chain from 0 to the rounded duration, and the planner's final
sort reconstructs exactly that interleaving. -/

theorem mergeNormalize_wf {pad : ℚ} (hpad : 0 ≤ pad) {jr : JRange} {r : RangeQ}
    (h : mergeNormalize pad jr = some r) : 0 ≤ r.start ∧ r.start ≤ r.stop := by
  unfold mergeNormalize at h
  rcases jr with ⟨s, e⟩
  cases s with
  | nan => exact Option.noConfusion h
  | num sq =>
      cases e with
      | nan => exact Option.noConfusion h
      | num eq_ =>
          simp only [Option.some.injEq] at h
          subst h
          constructor
          · exact le_max_left _ _
          · have hmm : min sq eq_ - pad ≤ max sq eq_ + pad := by
              have := min_le_max (a := sq) (b := eq_)
              linarith
            exact max_le_max le_rfl hmm

theorem mergeLoop_props :
    ∀ (t : List RangeQ) (cur : RangeQ),
      List.Pairwise byStart (cur :: t) →
      (0 ≤ cur.start ∧ cur.start ≤ cur.stop) →
      (∀ r ∈ t, 0 ≤ r.start ∧ r.start ≤ r.stop) →
      (∀ x ∈ mergeLoop cur t, (0 ≤ x.start ∧ x.start ≤ x.stop) ∧ cur.start ≤ x.start) ∧
      List.Pairwise (fun a b => a.stop + 1/1000 < b.start) (mergeLoop cur t) := by
  intro t
  induction t with
  | nil =>
      intro cur _ hcur _
      refine ⟨?_, List.pairwise_singleton _ _⟩
      intro x hx
      rw [mergeLoop, List.mem_singleton] at hx
      subst hx
      exact ⟨hcur, le_rfl⟩
  | cons r rest ih =>
      intro cur hsorted hcur hmem
      have hpair := List.pairwise_cons.mp hsorted
      have hrrest := List.pairwise_cons.mp hpair.2
      have hr : 0 ≤ r.start ∧ r.start ≤ r.stop := hmem r (List.mem_cons_self _ _)
      have hrest : ∀ x ∈ rest, 0 ≤ x.start ∧ x.start ≤ x.stop := fun x hx =>
        hmem x (List.mem_cons_of_mem _ hx)
      rw [mergeLoop]
      by_cases hmerge : r.start ≤ cur.stop + 1/1000
      · rw [if_pos hmerge]
        have hcur2 : 0 ≤ (⟨cur.start, max cur.stop r.stop⟩ : RangeQ).start ∧
            (⟨cur.start, max cur.stop r.stop⟩ : RangeQ).start ≤
              (⟨cur.start, max cur.stop r.stop⟩ : RangeQ).stop :=
          ⟨hcur.1, le_trans hcur.2 (le_max_left _ _)⟩
        have hsorted2 : List.Pairwise byStart ((⟨cur.start, max cur.stop r.stop⟩ : RangeQ) :: rest) := by
          rw [List.pairwise_cons]
          exact ⟨fun b hb => hpair.1 b (List.mem_cons_of_mem _ hb), hrrest.2⟩
        obtain ⟨hmem2, hpw2⟩ := ih _ hsorted2 hcur2 hrest
        exact ⟨fun x hx => ⟨(hmem2 x hx).1, (hmem2 x hx).2⟩, hpw2⟩
      · rw [if_neg hmerge]
        push_neg at hmerge
        obtain ⟨hmemR, hpwR⟩ := ih r hpair.2 hr hrest
        have hcurlt : ∀ x ∈ mergeLoop r rest, cur.stop + 1/1000 < x.start := fun x hx =>
          lt_of_lt_of_le hmerge (hmemR x hx).2
        constructor
        · intro x hx
          rcases List.mem_cons.mp hx with rfl | hx2
          · exact ⟨hcur, le_rfl⟩
          · refine ⟨(hmemR x hx2).1, ?_⟩
            have := hcurlt x hx2
            have := hcur.2
            linarith
        · rw [List.pairwise_cons]
          exact ⟨hcurlt, hpwR⟩

theorem mergeRanges_props (inputRanges : List JRange) {pad : ℚ} (hpad : 0 ≤ pad) :
    (∀ r ∈ mergeRanges inputRanges pad, RangeWF r) ∧
    List.Pairwise (fun a b => a.stop < b.start) (mergeRanges inputRanges pad) := by
  unfold mergeRanges
  cases hs : List.insertionSort byStart (inputRanges.filterMap (mergeNormalize pad)) with
  | nil => exact ⟨fun r hr => absurd hr (List.not_mem_nil _), List.Pairwise.nil⟩
  | cons h t =>
      have hsorted : List.Pairwise byStart (h :: t) := by
        rw [← hs]
        exact List.sorted_insertionSort byStart _
      have hwf0 : ∀ x ∈ h :: t, 0 ≤ x.start ∧ x.start ≤ x.stop := by
        intro x hx
        have hx2 : x ∈ inputRanges.filterMap (mergeNormalize pad) := by
          have hperm := List.perm_insertionSort byStart (inputRanges.filterMap (mergeNormalize pad))
          rw [hs] at hperm
          exact hperm.mem_iff.mp hx
        obtain ⟨jr, _, hjr⟩ := List.mem_filterMap.mp hx2
        exact mergeNormalize_wf hpad hjr
      obtain ⟨hmem, hpw⟩ := mergeLoop_props t h hsorted
        (hwf0 h (List.mem_cons_self _ _))
        (fun x hx => hwf0 x (List.mem_cons_of_mem _ hx))
      constructor
      · intro r hr
        obtain ⟨x, hx, rfl⟩ := List.mem_map.mp hr
        obtain ⟨⟨hx0, hxle⟩, -⟩ := hmem x hx
        exact ⟨roundMilli_nonneg hx0, roundMilli_mono hxle, roundMilli_grid _, roundMilli_grid _⟩
      · rw [List.pairwise_map]
        exact hpw.imp fun hab => roundMilli_lt_of_gap hab

theorem qclamp_id_of_lt {v D : ℚ} (hv0 : 0 ≤ v) (hvD : v < D) :
    qclamp v 0 D = v := by
  unfold qclamp
  rw [min_eq_right (le_of_lt hvD), max_eq_right hv0]

theorem changed_gap {D : ℚ} (hD : 1 ≤ D) {a b : RangeQ} (ha : RangeWF a) (hb : RangeWF b)
    (hab : a.stop < b.start)
    (hfb : 1/100 < roundMilli (qclamp b.stop 0 D) - roundMilli (qclamp b.start 0 D)) :
    roundMilli (qclamp a.stop 0 D) < roundMilli (qclamp b.start 0 D) := by
  obtain ⟨ha0, hale, -, hagrid⟩ := ha
  obtain ⟨hb0, hble, hbgrid, -⟩ := hb
  have hbD : b.start < D := by
    by_contra hcon
    push_neg at hcon
    have h1 : qclamp b.start 0 D = D := by
      unfold qclamp
      rw [min_eq_left hcon, max_eq_right (by linarith)]
    have h2 : qclamp b.stop 0 D = D := by
      unfold qclamp
      rw [min_eq_left (le_trans hcon hble), max_eq_right (by linarith)]
    rw [h1, h2] at hfb
    linarith
  have hstart : qclamp b.start 0 D = b.start := qclamp_id_of_lt hb0 hbD
  have haD : a.stop < D := lt_trans hab hbD
  have hstop : qclamp a.stop 0 D = a.stop := qclamp_id_of_lt (le_trans ha0 hale) haD
  rw [hstart, hstop, roundMilli_of_grid hagrid, roundMilli_of_grid hbgrid]
  exact hab

theorem changedRanges_props (m : List RangeQ) {D : ℚ} (hD : 1 ≤ D)
    (hwf : ∀ r ∈ m, RangeWF r)
    (hp : List.Pairwise (fun a b => a.stop < b.start) m) :
    (∀ r ∈ (m.map fun r => (⟨roundMilli (qclamp r.start 0 D),
        roundMilli (qclamp r.stop 0 D)⟩ : RangeQ)).filter
        (fun r => decide (1/100 < r.stop - r.start)), ChangedWF D r) ∧
    List.Pairwise (fun a b => a.stop < b.start)
      ((m.map fun r => (⟨roundMilli (qclamp r.start 0 D),
        roundMilli (qclamp r.stop 0 D)⟩ : RangeQ)).filter
        (fun r => decide (1/100 < r.stop - r.start))) := by
  constructor
  · intro r hr
    obtain ⟨hrmem, hrflt⟩ := List.mem_filter.mp hr
    obtain ⟨r0, hr0, rfl⟩ := List.mem_map.mp hrmem
    obtain ⟨h00, h0le, -, -⟩ := hwf r0 hr0
    simp only [decide_eq_true_eq] at hrflt
    refine ⟨roundMilli_nonneg (le_max_left _ _), by linarith, ?_,
      roundMilli_grid _, roundMilli_grid _⟩
    have : qclamp r0.stop 0 D ≤ D := qclamp_le (by linarith)
    exact roundMilli_mono this
  · have hpmap : List.Pairwise
        (fun a b : RangeQ =>
          (1/100 < b.stop - b.start) → a.stop < b.start)
        (m.map fun r => (⟨roundMilli (qclamp r.start 0 D),
          roundMilli (qclamp r.stop 0 D)⟩ : RangeQ)) := by
      rw [List.pairwise_map]
      have hstep : ∀ a ∈ m, ∀ b ∈ m, a.stop < b.start →
          ((1/100 < roundMilli (qclamp b.stop 0 D) - roundMilli (qclamp b.start 0 D)) →
            roundMilli (qclamp a.stop 0 D) < roundMilli (qclamp b.start 0 D)) := by
        intro a hma b hmb hab hfb
        exact changed_gap hD (hwf a hma) (hwf b hmb) hab hfb
      exact hp.imp_of_mem fun {a b} hma hmb hab => hstep a hma b hmb hab
    have hfiltered := hpmap.filter (fun r => decide (1/100 < r.stop - r.start))
    refine hfiltered.imp_of_mem ?_
    intro a b ha hb himp
    have hbf := (List.mem_filter.mp hb).2
    simp only [decide_eq_true_eq] at hbf
    exact himp hbf

theorem fused_perm (D : ℚ) :
    ∀ (l : List RangeQ) (c : ℚ),
      (fusedSegs D c l).Perm
        (l.map (fun r => (⟨r.start, r.stop, .reencode⟩ : Segment)) ++
         (invertLoop D c l).map (fun r => (⟨r.start, r.stop, .copy⟩ : Segment))) := by
  intro l
  induction l with
  | nil =>
      intro c
      rw [fusedSegs, invertLoop]
      by_cases hc : c < D
      · rw [if_pos hc, if_pos hc]
        exact List.Perm.refl _
      · rw [if_neg hc, if_neg hc]
        exact List.Perm.refl _
  | cons r rest ih =>
      intro c
      rw [fusedSegs, invertLoop]
      by_cases hc : c < r.start
      · rw [if_pos hc, if_pos hc]
        simp only [List.map_cons, List.cons_append]
        refine List.Perm.trans (List.Perm.cons _ (List.Perm.cons _ (ih (max c r.stop)))) ?_
        refine List.Perm.trans (List.Perm.swap _ _ _) ?_
        exact List.Perm.cons _ List.perm_middle.symm
      · rw [if_neg hc, if_neg hc]
        simp only [List.map_cons, List.cons_append]
        exact List.Perm.cons _ (ih (max c r.stop))

theorem fused_props {D : ℚ} :
    ∀ (l : List RangeQ) (c : ℚ), Grid c → 0 ≤ c → c ≤ roundMilli D →
      (∀ r ∈ l, ChangedWF D r) →
      List.Pairwise (fun a b => a.stop < b.start) l →
      (∀ r ∈ l, c ≤ r.start) →
      chainFrom c (roundMilli D) (fusedSegs D c l) ∧
      List.Pairwise (fun a b : Segment => a.start < b.start) (fusedSegs D c l) ∧
      (∀ s ∈ fusedSegs D c l, c ≤ s.start) := by
  intro l
  induction l with
  | nil =>
      intro c hgrid hc0 hcD _ _ _
      rw [fusedSegs]
      by_cases hc : c < D
      · rw [if_pos hc]
        refine ⟨⟨roundMilli_of_grid hgrid, ?_, rfl⟩, List.pairwise_singleton _ _, ?_⟩
        · rw [roundMilli_of_grid hgrid]
          exact hcD
        · intro s hs
          rw [List.mem_singleton] at hs
          subst hs
          rw [roundMilli_of_grid hgrid]
      · rw [if_neg hc]
        push_neg at hc
        have h1 : roundMilli D ≤ roundMilli c := roundMilli_mono hc
        rw [roundMilli_of_grid hgrid] at h1
        refine ⟨le_antisymm hcD h1, List.Pairwise.nil, ?_⟩
        intro s hs
        exact absurd hs (List.not_mem_nil _)
  | cons r rest ih =>
      intro c hgrid hc0 hcD hwf hpw hstart
      have hr : ChangedWF D r := hwf r (List.mem_cons_self _ _)
      obtain ⟨hr0, hrlt, hrD, hrgs, hrge⟩ := hr
      have hcr : c ≤ r.start := hstart r (List.mem_cons_self _ _)
      have hmax : max c r.stop = r.stop := max_eq_right (le_trans hcr (le_of_lt hrlt))
      have hreststart : ∀ x ∈ rest, r.stop ≤ x.start := fun x hx =>
        le_of_lt (List.rel_of_pairwise_cons hpw hx)
      have hrestwf : ∀ x ∈ rest, ChangedWF D x := fun x hx =>
        hwf x (List.mem_cons_of_mem _ hx)
      have hIH := ih r.stop hrge (le_trans (le_trans hc0 hcr) (le_of_lt hrlt)) hrD hrestwf
        (List.pairwise_cons.mp hpw).2 hreststart
      obtain ⟨hchain, hpwF, hboundF⟩ := hIH
      rw [fusedSegs, hmax]
      by_cases hc : c < r.start
      · rw [if_pos hc]
        refine ⟨?_, ?_, ?_⟩
        · refine ⟨roundMilli_of_grid hgrid, ?_, ?_⟩
          · rw [roundMilli_of_grid hgrid, roundMilli_of_grid hrgs]
            exact le_of_lt hc
          · rw [roundMilli_of_grid hrgs]
            exact ⟨rfl, le_of_lt hrlt, hchain⟩
        · rw [List.pairwise_cons]
          constructor
          · intro s hs
            rw [roundMilli_of_grid hgrid]
            rcases List.mem_cons.mp hs with rfl | hs2
            · rw [roundMilli_of_grid hrgs]
              exact hc
            · exact lt_of_lt_of_le (lt_trans hc hrlt) (hboundF s hs2)
          · rw [List.pairwise_cons]
            refine ⟨?_, hpwF⟩
            intro s hs
            exact lt_of_lt_of_le hrlt (hboundF s hs)
        · intro s hs
          rcases List.mem_cons.mp hs with rfl | hs2
          · rw [roundMilli_of_grid hgrid]
          · rcases List.mem_cons.mp hs2 with rfl | hs3
            · exact hcr
            · exact le_trans (le_trans hcr (le_of_lt hrlt)) (hboundF s hs3)
      · rw [if_neg hc]
        push_neg at hc
        have hceq : c = r.start := le_antisymm hcr hc
        refine ⟨⟨hceq.symm, le_of_lt hrlt, hchain⟩, ?_, ?_⟩
        · rw [List.pairwise_cons]
          refine ⟨?_, hpwF⟩
          intro s hs
          exact lt_of_lt_of_le hrlt (hboundF s hs)
        · intro s hs
          rcases List.mem_cons.mp hs with rfl | hs2
          · exact hcr
          · exact le_trans (le_trans hcr (le_of_lt hrlt)) (hboundF s hs2)

theorem fused_filter_reencode (D : ℚ) :
    ∀ (l : List RangeQ) (c : ℚ),
      (fusedSegs D c l).filter (fun s => s.mode == SegMode.reencode) =
        l.map (fun r => (⟨r.start, r.stop, .reencode⟩ : Segment)) := by
  intro l
  induction l with
  | nil =>
      intro c
      rw [fusedSegs]
      by_cases hc : c < D
      · rw [if_pos hc]
        rfl
      · rw [if_neg hc]
        rfl
  | cons r rest ih =>
      intro c
      have hfc : (SegMode.copy == SegMode.reencode) = false := rfl
      have hfr : (SegMode.reencode == SegMode.reencode) = true := rfl
      rw [fusedSegs]
      by_cases hc : c < r.start
      · rw [if_pos hc]
        simp only [List.filter_cons, hfc, hfr, Bool.false_eq_true, if_false, if_true,
          List.map_cons]
        rw [ih (max c r.stop)]
      · rw [if_neg hc]
        simp only [List.filter_cons, hfr, if_true, List.map_cons]
        rw [ih (max c r.stop)]

theorem fused_filter_copy (D : ℚ) :
    ∀ (l : List RangeQ) (c : ℚ),
      (fusedSegs D c l).filter (fun s => s.mode == SegMode.copy) =
        (invertLoop D c l).map (fun r => (⟨r.start, r.stop, .copy⟩ : Segment)) := by
  intro l
  induction l with
  | nil =>
      intro c
      rw [fusedSegs, invertLoop]
      by_cases hc : c < D
      · rw [if_pos hc, if_pos hc]
        rfl
      · rw [if_neg hc, if_neg hc]
        rfl
  | cons r rest ih =>
      intro c
      have hcc : (SegMode.copy == SegMode.copy) = true := rfl
      have hrc : (SegMode.reencode == SegMode.copy) = false := rfl
      rw [fusedSegs, invertLoop]
      by_cases hc : c < r.start
      · rw [if_pos hc, if_pos hc]
        simp only [List.filter_cons, hcc, hrc, Bool.false_eq_true, if_false, if_true,
          List.map_cons]
        rw [ih (max c r.stop)]
      · rw [if_neg hc, if_neg hc]
        simp only [List.filter_cons, hrc, Bool.false_eq_true, if_false]
        exact ih (max c r.stop)

theorem segments_eq_fused {D : ℚ} (hD : 1 ≤ D) (l : List RangeQ)
    (hwf : ∀ r ∈ l, ChangedWF D r)
    (hp : List.Pairwise (fun a b => a.stop < b.start) l) :
    List.insertionSort bySegStart
      (l.map (fun r => (⟨r.start, r.stop, .reencode⟩ : Segment)) ++
       (invertLoop D 0 l).map (fun r => (⟨r.start, r.stop, .copy⟩ : Segment))) =
    fusedSegs D 0 l := by
  have hstart0 : ∀ r ∈ l, (0:ℚ) ≤ r.start := fun r hr => (hwf r hr).1
  have h0D : (0:ℚ) ≤ roundMilli D := roundMilli_nonneg (by linarith)
  obtain ⟨-, hpwlt, -⟩ := fused_props l 0 grid_zero le_rfl h0D hwf hp hstart0
  have hperm : (List.insertionSort bySegStart
      (l.map (fun r => (⟨r.start, r.stop, .reencode⟩ : Segment)) ++
       (invertLoop D 0 l).map (fun r => (⟨r.start, r.stop, .copy⟩ : Segment)))).Perm
      (fusedSegs D 0 l) :=
    (List.perm_insertionSort bySegStart _).trans (fused_perm D l 0).symm
  haveI : IsAntisymm Segment (fun a b => a.start < b.start) :=
    ⟨fun a b h1 h2 => absurd h2 (lt_asymm h1)⟩
  have hsorted := List.sorted_insertionSort bySegStart
    (l.map (fun r => (⟨r.start, r.stop, .reencode⟩ : Segment)) ++
     (invertLoop D 0 l).map (fun r => (⟨r.start, r.stop, .copy⟩ : Segment)))
  have hne : List.Pairwise (fun a b : Segment => a.start ≠ b.start)
      (List.insertionSort bySegStart
        (l.map (fun r => (⟨r.start, r.stop, .reencode⟩ : Segment)) ++
         (invertLoop D 0 l).map (fun r => (⟨r.start, r.stop, .copy⟩ : Segment)))) :=
    (List.Perm.pairwise_iff (fun h => h.symm) hperm).mpr (hpwlt.imp fun h => ne_of_lt h)
  refine List.eq_of_perm_of_sorted hperm ?_ hpwlt
  exact (hsorted.and hne).imp fun hab => lt_of_le_of_ne hab.1 hab.2

theorem plan_conclusions {D : ℚ} (hD : 1 ≤ D) (m : List RangeQ)
    (hwf : ∀ r ∈ m, RangeWF r)
    (hp : List.Pairwise (fun a b => a.stop < b.start) m) :
    chainFrom 0 (roundMilli D)
      (List.insertionSort bySegStart
        (((m.map fun r => (⟨roundMilli (qclamp r.start 0 D),
            roundMilli (qclamp r.stop 0 D)⟩ : RangeQ)).filter
            (fun r => decide (1/100 < r.stop - r.start))).map
          (fun r => (⟨r.start, r.stop, .reencode⟩ : Segment)) ++
         (invertRanges D
            ((m.map fun r => (⟨roundMilli (qclamp r.start 0 D),
              roundMilli (qclamp r.stop 0 D)⟩ : RangeQ)).filter
              (fun r => decide (1/100 < r.stop - r.start)))).map
          (fun r => (⟨r.start, r.stop, .copy⟩ : Segment)))) ∧
    List.Pairwise (fun a b : Segment => a.start ≤ b.start)
      (List.insertionSort bySegStart
        (((m.map fun r => (⟨roundMilli (qclamp r.start 0 D),
            roundMilli (qclamp r.stop 0 D)⟩ : RangeQ)).filter
            (fun r => decide (1/100 < r.stop - r.start))).map
          (fun r => (⟨r.start, r.stop, .reencode⟩ : Segment)) ++
         (invertRanges D
            ((m.map fun r => (⟨roundMilli (qclamp r.start 0 D),
              roundMilli (qclamp r.stop 0 D)⟩ : RangeQ)).filter
              (fun r => decide (1/100 < r.stop - r.start)))).map
          (fun r => (⟨r.start, r.stop, .copy⟩ : Segment)))) ∧
    (List.insertionSort bySegStart
        (((m.map fun r => (⟨roundMilli (qclamp r.start 0 D),
            roundMilli (qclamp r.stop 0 D)⟩ : RangeQ)).filter
            (fun r => decide (1/100 < r.stop - r.start))).map
          (fun r => (⟨r.start, r.stop, .reencode⟩ : Segment)) ++
         (invertRanges D
            ((m.map fun r => (⟨roundMilli (qclamp r.start 0 D),
              roundMilli (qclamp r.stop 0 D)⟩ : RangeQ)).filter
              (fun r => decide (1/100 < r.stop - r.start)))).map
          (fun r => (⟨r.start, r.stop, .copy⟩ : Segment)))).filter
      (fun s => s.mode == SegMode.reencode) =
      ((m.map fun r => (⟨roundMilli (qclamp r.start 0 D),
        roundMilli (qclamp r.stop 0 D)⟩ : RangeQ)).filter
        (fun r => decide (1/100 < r.stop - r.start))).map
        (fun r => (⟨r.start, r.stop, .reencode⟩ : Segment)) ∧
    (List.insertionSort bySegStart
        (((m.map fun r => (⟨roundMilli (qclamp r.start 0 D),
            roundMilli (qclamp r.stop 0 D)⟩ : RangeQ)).filter
            (fun r => decide (1/100 < r.stop - r.start))).map
          (fun r => (⟨r.start, r.stop, .reencode⟩ : Segment)) ++
         (invertRanges D
            ((m.map fun r => (⟨roundMilli (qclamp r.start 0 D),
              roundMilli (qclamp r.stop 0 D)⟩ : RangeQ)).filter
              (fun r => decide (1/100 < r.stop - r.start)))).map
          (fun r => (⟨r.start, r.stop, .copy⟩ : Segment)))).filter
      (fun s => s.mode == SegMode.copy) =
      (invertRanges D
        ((m.map fun r => (⟨roundMilli (qclamp r.start 0 D),
          roundMilli (qclamp r.stop 0 D)⟩ : RangeQ)).filter
          (fun r => decide (1/100 < r.stop - r.start)))).map
        (fun r => (⟨r.start, r.stop, .copy⟩ : Segment)) := by
  obtain ⟨hCwf, hCpw⟩ := changedRanges_props m hD hwf hp
  rw [invertRanges]
  rw [segments_eq_fused hD _ hCwf hCpw]
  obtain ⟨hchain, hlt, -⟩ := fused_props _ 0 grid_zero le_rfl
    (roundMilli_nonneg (by linarith)) hCwf hCpw (fun r hr => (hCwf r hr).1)
  exact ⟨hchain, hlt.imp fun hab => le_of_lt hab,
    fused_filter_reencode D _ 0, fused_filter_copy D _ 0⟩

/-- C1: for every payload on which the planner does not throw, the returned
RenderPlan's segments form a contiguous chain from 0 to the plan's
`durationSec` — sorted by start, no gap, no overlap, covering
`[0, durationSec)` — and are exactly the changed ranges tagged `reencode`
together with the unchanged ranges tagged `copy`. -/
theorem c1_partition_invariant (payload : PlanPayload) (uuid now : String) (plan : RenderPlan)
    (h : buildIncrementalRenderPlan payload uuid now = .ok plan) :
    chainFrom 0 plan.durationSec plan.segments ∧
    List.Pairwise (fun a b : Segment => a.start ≤ b.start) plan.segments ∧
    plan.segments.filter (fun s => s.mode == SegMode.reencode) =
      plan.changedRanges.map (fun r => (⟨r.start, r.stop, .reencode⟩ : Segment)) ∧
    plan.segments.filter (fun s => s.mode == SegMode.copy) =
      plan.unchangedRanges.map (fun r => (⟨r.start, r.stop, .copy⟩ : Segment)) := by
  unfold buildIncrementalRenderPlan at h
  cases hres : readExplicitRanges (payload.changedRanges.getD []) with
  | error e =>
      rw [hres] at h
      exact Except.noConfusion h
  | ok explicitRaw =>
      rw [hres] at h
      dsimp only at h
      rw [Except.ok.injEq] at h
      subst h
      dsimp only
      exact plan_conclusions (normalizeDuration_pos _) _
        (mergeRanges_props _ (by norm_num)).1 (mergeRanges_props _ (by norm_num)).2

/-- witness for C1 at the all-defaults payload: the plan exists and its
segments partition `[0, 60)`. -/
theorem c1_partition_invariant_witness :
    ∃ plan, buildIncrementalRenderPlan ⟨.undef, .undef, .undef, none, none, none, none⟩
        "uuid-c1" "2026-01-01" = .ok plan ∧
      (chainFrom 0 plan.durationSec plan.segments ∧
        List.Pairwise (fun a b : Segment => a.start ≤ b.start) plan.segments ∧
        plan.segments.filter (fun s => s.mode == SegMode.reencode) =
          plan.changedRanges.map (fun r => (⟨r.start, r.stop, .reencode⟩ : Segment)) ∧
        plan.segments.filter (fun s => s.mode == SegMode.copy) =
          plan.unchangedRanges.map (fun r => (⟨r.start, r.stop, .copy⟩ : Segment))) := by
  obtain ⟨plan, hplan⟩ := buildPlan_trivial_ok "uuid-c1" "2026-01-01"
  exact ⟨plan, hplan, c1_partition_invariant _ "uuid-c1" "2026-01-01" plan hplan⟩

end Void
